import Mathlib

/-!
# Verification of the agent-execution core

A shallow embedding, in Lean 4, of the agent-execution core of this
repository: the tool-call accumulator, the two ReAct loop engines
(the legacy `src/core/ReActExecutor.ts` variant and the current engine
with the reserved final-answer tool), and the planner orchestrator
(`PlannerExecutor`).  Model calls, streamed chunks and tool executions
are external collaborators; they are embedded as explicit oracle
functions passed to the (total) Lean functions that mirror the loops.
Wall-clock data (timestamps, durations, clock-derived identifiers) is
outside the embedding and is replaced by iteration counters or fixed
placeholder strings; no proved statement depends on those fields.
-/

namespace AgentCore

/-- A JSON value, the shape of parsed tool-call arguments. -/
inductive Json where
  | null : Json
  | bool (b : Bool) : Json
  | num (n : Int) : Json
  | str (s : String) : Json
  | arr (elems : List Json) : Json
  | obj (fields : List (String × Json)) : Json

instance : Inhabited Json := ⟨Json.null⟩

/-- Field lookup in a JSON object (`none` on non-objects). -/
def jsonLookup (j : Json) (key : String) : Option Json :=
  match j with
  | .obj fields => fields.lookup key
  | _ => none

/-! ## Tool-call accumulator

Modelled from the spec: the stream-helper module (`mergeToolCalls` /
`toLangChainToolCalls`, imported by both ReAct engines from
`./utils/streamHelper.js`) is not among the source files; only the
importing modules and call sites are.  The definitions below follow §4.1 of
the specification: chunks sharing an `index` belong to one in-progress
call, `arguments` text fragments are concatenated in arrival order,
`id`/`name` are filled the first time each appears for that index, and
on stream end the concatenated `arguments` text of every accumulated
index is parsed as JSON, a parse failure being a reported error for
that call only. -/

/-- One streamed fragment of a proposed tool invocation. -/
structure ToolCallChunk where
  index : Nat
  id : Option String
  name : Option String
  args : Option String
deriving DecidableEq

/-- An in-progress accumulated call for one `index`. -/
structure AccumulatedToolCall where
  index : Nat
  id : Option String
  name : Option String
  args : String
deriving DecidableEq

/-- Modelled from the spec: merge a single chunk into the accumulator
(fills `id`/`name` on first appearance, appends the `arguments`
fragment; a chunk with a fresh index opens a new accumulated call). -/
def mergeOne (acc : List AccumulatedToolCall) (c : ToolCallChunk) :
    List AccumulatedToolCall :=
  if acc.any (fun a => a.index == c.index) then
    acc.map (fun a =>
      if a.index == c.index then
        { a with
          id := a.id <|> c.id
          name := a.name <|> c.name
          args := a.args ++ c.args.getD "" }
      else a)
  else
    acc ++ [{ index := c.index, id := c.id, name := c.name,
              args := c.args.getD "" }]

/-- Modelled from the spec: fold a batch of chunks into the
accumulator, in arrival order. -/
def mergeToolCalls (acc : List AccumulatedToolCall)
    (chunks : List ToolCallChunk) : List AccumulatedToolCall :=
  chunks.foldl mergeOne acc

/-- First `some` among a list of options (how `id`/`name` are chosen:
the first chunk that carries each wins). -/
def firstSome : List (Option String) → Option String
  | [] => none
  | some x :: _ => some x
  | none :: rest => firstSome rest

/-- The concatenation of the argument fragments of a chunk list. -/
def concatArgs : List ToolCallChunk → String
  | [] => ""
  | c :: rest => c.args.getD "" ++ concatArgs rest

/-- A completed tool call as dispatched by the engines. -/
structure ToolCall where
  id : Option String
  name : String
  args : Json

/-- Modelled from the spec: on stream end parse each accumulated call's
`arguments` text as JSON; a call whose text does not parse is dropped
from dispatch and its name reported as an error (spec §4.1 and §7,
`MalformedToolCallArguments`: fatal to that call's dispatch only).  The
JSON parser itself belongs to the missing helper module and is
abstracted as the parameter `parse`. -/
def toLangChainToolCalls (parse : String → Option Json)
    (acc : List AccumulatedToolCall) : List ToolCall × List String :=
  acc.foldr
    (fun a (r : List ToolCall × List String) =>
      match parse a.args with
      | some j => ({ id := a.id, name := a.name.getD "", args := j } :: r.1, r.2)
      | none => (r.1, (a.name.getD "") :: r.2))
    ([], [])

/-! Accumulator lemmas. -/

theorem mergeOne_single_index (a : AccumulatedToolCall) (c : ToolCallChunk)
    (h : a.index = c.index) :
    mergeOne [a] c =
      [{ a with id := a.id <|> c.id, name := a.name <|> c.name,
                args := a.args ++ c.args.getD "" }] := by
  simp [mergeOne, h]

theorem firstSome_cons (o : Option String) (l : List (Option String)) :
    firstSome (o :: l) = (o <|> firstSome l) := by
  cases o <;> rfl

/-- Folding a same-index chunk list onto a single accumulated call of
that index concatenates the fragments and keeps the first `id`/`name`. -/
theorem mergeToolCalls_single_index_general (i : Nat)
    (chunks : List ToolCallChunk) (a : AccumulatedToolCall)
    (ha : a.index = i) (h : ∀ c ∈ chunks, c.index = i) :
    mergeToolCalls [a] chunks =
      [{ index := a.index,
         id := a.id <|> firstSome (chunks.map (fun c => c.id)),
         name := a.name <|> firstSome (chunks.map (fun c => c.name)),
         args := a.args ++ concatArgs chunks }] := by
  induction chunks generalizing a with
  | nil =>
    obtain ⟨idx, aid, anm, aargs⟩ := a
    cases aid <;> cases anm <;>
      simp [mergeToolCalls, concatArgs, firstSome, Option.orElse]
  | cons c rest ih =>
    have hc : c.index = i := h c (List.mem_cons_self _ _)
    have hrest : ∀ x ∈ rest, x.index = i := fun x hx => h x (List.mem_cons_of_mem _ hx)
    have hstep : mergeToolCalls [a] (c :: rest) =
        mergeToolCalls
          [{ a with id := a.id <|> c.id, name := a.name <|> c.name,
                    args := a.args ++ c.args.getD "" }] rest := by
      simp [mergeToolCalls, mergeOne_single_index a c (ha.trans hc.symm)]
    rw [hstep,
      ih { a with id := a.id <|> c.id, name := a.name <|> c.name,
                  args := a.args ++ c.args.getD "" } ha hrest]
    obtain ⟨idx, aid, anm, aargs⟩ := a
    cases aid <;> cases anm <;> cases hcid : c.id <;> cases hcnm : c.name <;>
      simp [concatArgs, firstSome_cons, hcid, hcnm, Option.orElse,
        String.append_assoc]

/-- Accumulating a nonempty same-index chunk list from a fresh (empty)
accumulator yields a single merged call: `arguments` is the ordered
concatenation of the fragments, and `id`/`name` come from the first
chunk carrying each. -/
theorem mergeToolCalls_from_empty (i : Nat) (c : ToolCallChunk)
    (rest : List ToolCallChunk) (hc : c.index = i)
    (hrest : ∀ x ∈ rest, x.index = i) :
    mergeToolCalls [] (c :: rest) =
      [{ index := i,
         id := firstSome ((c :: rest).map (fun x => x.id)),
         name := firstSome ((c :: rest).map (fun x => x.name)),
         args := concatArgs (c :: rest) }] := by
  have hstep : mergeToolCalls [] (c :: rest) =
      mergeToolCalls
        [{ index := c.index, id := c.id, name := c.name,
           args := c.args.getD "" }] rest := by
    simp [mergeToolCalls, mergeOne]
  rw [hstep,
    mergeToolCalls_single_index_general i rest
      { index := c.index, id := c.id, name := c.name, args := c.args.getD "" }
      hc hrest]
  cases hcid : c.id <;> cases hcnm : c.name <;>
    simp [hc, hcid, hcnm, firstSome_cons, concatArgs, Option.orElse]

theorem firstSome_singleton (o : Option String) : firstSome [o] = o := by
  cases o <;> rfl

/-- C9: for a chunk sequence sharing one index, the accumulator's
merged `arguments` text is the concatenation of the fragments in
arrival order and `id`/`name` are filled from the first chunk carrying
each (first conjunct); the equivalent monolithic single-chunk call
accumulates to the byte-identical merged call, so the merged text
parses to the same JSON value under any parser (second and third
conjuncts); replaying the identical chunk sequence against a fresh
accumulator yields identical merged calls — the accumulator is a pure
function (fourth conjunct). -/
theorem accumulator_single_index_spec (i : Nat) (c0 : ToolCallChunk)
    (rest : List ToolCallChunk) (h : ∀ x ∈ c0 :: rest, x.index = i) :
    mergeToolCalls [] (c0 :: rest) =
      [{ index := i,
         id := firstSome ((c0 :: rest).map (fun x => x.id)),
         name := firstSome ((c0 :: rest).map (fun x => x.name)),
         args := concatArgs (c0 :: rest) }]
    ∧ mergeToolCalls []
        [⟨i, firstSome ((c0 :: rest).map (fun x => x.id)),
          firstSome ((c0 :: rest).map (fun x => x.name)),
          some (concatArgs (c0 :: rest))⟩] =
      mergeToolCalls [] (c0 :: rest)
    ∧ (∀ parse : String → Option Json,
        toLangChainToolCalls parse (mergeToolCalls [] (c0 :: rest)) =
          toLangChainToolCalls parse (mergeToolCalls []
            [⟨i, firstSome ((c0 :: rest).map (fun x => x.id)),
              firstSome ((c0 :: rest).map (fun x => x.name)),
              some (concatArgs (c0 :: rest))⟩]))
    ∧ mergeToolCalls [] (c0 :: rest) = mergeToolCalls [] (c0 :: rest) := by
  have hc : c0.index = i := h c0 (List.mem_cons_self _ _)
  have hrest : ∀ x ∈ rest, x.index = i := fun x hx => h x (List.mem_cons_of_mem _ hx)
  have hmain := mergeToolCalls_from_empty i c0 rest hc hrest
  have hmono := mergeToolCalls_from_empty i
    ⟨i, firstSome ((c0 :: rest).map (fun x => x.id)),
      firstSome ((c0 :: rest).map (fun x => x.name)),
      some (concatArgs (c0 :: rest))⟩ [] rfl (by simp)
  have hmono' : mergeToolCalls []
      [⟨i, firstSome ((c0 :: rest).map (fun x => x.id)),
        firstSome ((c0 :: rest).map (fun x => x.name)),
        some (concatArgs (c0 :: rest))⟩] =
      mergeToolCalls [] (c0 :: rest) := by
    rw [hmain, hmono]
    simp [firstSome_singleton, concatArgs]
  exact ⟨hmain, hmono', fun parse => by rw [hmono'], rfl⟩

/-- Witness for C9 at a concrete two-fragment chunk sequence. -/
theorem accumulator_single_index_spec_witness :
    mergeToolCalls []
      [⟨0, some "id7", none, some "ab"⟩, ⟨0, none, some "search", some "cd"⟩] =
      [{ index := 0,
         id := firstSome
           ([⟨0, some "id7", none, some "ab"⟩,
             (⟨0, none, some "search", some "cd"⟩ : ToolCallChunk)].map
             (fun x => x.id)),
         name := firstSome
           ([⟨0, some "id7", none, some "ab"⟩,
             (⟨0, none, some "search", some "cd"⟩ : ToolCallChunk)].map
             (fun x => x.name)),
         args := concatArgs
           [⟨0, some "id7", none, some "ab"⟩,
            ⟨0, none, some "search", some "cd"⟩] }] :=
  (accumulator_single_index_spec 0 ⟨0, some "id7", none, some "ab"⟩
    [⟨0, none, some "search", some "cd"⟩] (by decide)).1

/-! ## ReAct engine — current variant (`ReActExecutor` with the
reserved final-answer tool, the engine re-exported to the planner)

Embedded from the source of the executor that imports `createLLM` from
`BaseLLM` and always installs a final-answer tool (default
`give_final_answer`).  The model transport (`createLLM`, provider
switching, temperature, API keys) is an external collaborator and is
embedded as the `ModelOracle` below; tool parameter schemas (zod) are
prompt-formatting data only and are reduced to the name/description
lines, which no claim inspects. -/

/-- A tool: name-keyed capability with a fallible text execution.
`execute` returning `.error e` embeds a thrown `ToolExecutionError`. -/
structure Tool where
  name : String
  description : String
  execute : Json → Except String String

/-- A conversation message (`system` / `human` / `ai` with attached
tool calls / tool-result linked to a call id). -/
inductive Message where
  | system (content : String)
  | human (content : String)
  | ai (content : String) (toolCalls : List ToolCall)
  | tool (callId : String) (content : String)

/-- The `content` field of a message (used by the empty-turn guard). -/
def msgContent : Message → String
  | .system c => c
  | .human c => c
  | .ai c _ => c
  | .tool _ c => c

/-- The attached tool calls of a message (`[]` for non-assistant
messages, where the source reads `undefined`). -/
def msgToolCalls : Message → List ToolCall
  | .ai _ tc => tc
  | _ => []

/-- A buffered model response: free text plus completed tool calls. -/
structure ModelResponse where
  content : String
  toolCalls : List ToolCall

/-- One streamed chunk: a text fragment plus tool-call fragments. -/
structure StreamChunk where
  content : String
  toolCallChunks : List ToolCallChunk

/-- The model collaborator.  `invoke` is the buffered call and may
throw (`.error`).  `stream` delivers the chunks of one turn in order;
`some e` in the second component embeds an exception thrown by the
stream after those chunks were delivered (a throw before any chunk is
`([], some e)`). -/
structure ModelOracle where
  invoke : List Message → Except String ModelResponse
  stream : List Message → List StreamChunk × Option String

/-- Engine configuration (transport fields such as model name,
provider, temperature and keys live in the model collaborator). -/
structure ReActConfig where
  maxIterations : Nat
  streaming : Bool
  systemPrompt : String
  finalAnswerTool : Tool

/-- The default reserved final-answer tool. -/
def defaultFinalAnswerTool : Tool :=
  { name := "give_final_answer"
    description := "当你完成所有思考和推理后，调用此函数给出最终答案。只在你确定答案时调用。"
    execute := fun _ => .ok "" }

/-- Events delivered to the observer.  Wall-clock `timestamp` /
`duration` fields are dropped (outside the embedding); `thoughtId` is
the per-iteration identifier without its clock component. -/
inductive REvent where
  | thought (thoughtId : String) (chunk : String) (isComplete : Bool)
  | toolCall (toolCallId : String) (toolName : String) (args : Json)
  | toolCallResult (toolCallId : String) (toolName : String)
      (result : String) (success : Bool)
  | error (message : String)
  | finalResult (content : String) (iterationCount : Nat)

/-- Whether an event is the terminal `final_result` event. -/
def isFinalResultEv : REvent → Bool
  | .finalResult _ _ => true
  | _ => false

/-- Whether an event is a `tool_call` event. -/
def isToolCallEv : REvent → Bool
  | .toolCall _ _ _ => true
  | _ => false

/-- Whether an event is a `tool_call_result` event. -/
def isToolCallResultEv : REvent → Bool
  | .toolCallResult _ _ _ _ => true
  | _ => false

/-- Extraction of the final answer from a `give_final_answer` call:
`args.answer || content` — the `answer` argument if it is a nonempty
string, the turn's free text otherwise (the source's cast presumes a
string argument; JavaScript falsiness maps `""`/missing to the
fallback). -/
def extractAnswer (args : Json) (content : String) : String :=
  match jsonLookup args "answer" with
  | some (.str a) => if a == "" then content else a
  | _ => content

/-- The suffix appended to the system prompt describing the
final-answer tool. -/
def finalAnswerPromptSuffix (toolName : String) : String :=
  "\n\n特别注意：\n- 当你有了最终答案，必须调用 " ++ toolName ++
  " 工具来给出答案\n- 最终答案必须通过调用 " ++ toolName ++
  " 工具来给出，不要直接在回复中给出最终答案"

/-- Tool descriptions rendered into the prompt (the per-parameter
lines derived from the zod schema shape are prompt text outside the
embedding). -/
def formatToolDescriptions (tools : List Tool) : String :=
  String.intercalate "\n\n"
    (tools.map (fun t => "- " ++ t.name ++ ": " ++ t.description))

/-- The default user-message template (`context` is appended only when
present and nonempty, matching the source's truthiness test). -/
def defaultUserMessageTemplate (input : String) (toolDescriptions : String)
    (context : Option String) : String :=
  let base := "任务: " ++ input ++ "\n\n可用工具:\n" ++ toolDescriptions
  match context with
  | some c => if c == "" then base else base ++ "\n\n之前步骤的上下文:\n" ++ c
  | none => base

/-- The outcome of dispatching one tool call. -/
structure DispatchOut where
  observation : String
  success : Bool
  events : List REvent
  message : Message
  historyEntry : String

/-- Dispatch of one tool call in buffered mode (look the tool up in
the full tool set; absent → observation naming the miss; present →
`execute`, catching a failure into an observation).  The synthesized
call id for an id-less call is clock-derived in the source and is a
fixed placeholder here. -/
def execCallB (allTools : List Tool) (call : ToolCall) : DispatchOut :=
  let toolCallId := call.id.getD "call_synth"
  let n := call.name
  let callEv := REvent.toolCall toolCallId n call.args
  match allTools.find? (fun t => t.name == n) with
  | none =>
    let observation := "工具 \"" ++ n ++ "\" 未找到"
    { observation := observation, success := false
      events := [callEv, .error observation,
                 .toolCallResult toolCallId n observation false]
      message := .tool toolCallId observation
      historyEntry := "动作: " ++ n ++ "\n观察: " ++ observation }
  | some t =>
    match t.execute call.args with
    | .ok observation =>
      { observation := observation, success := true
        events := [callEv, .toolCallResult toolCallId n observation true]
        message := .tool toolCallId observation
        historyEntry := "动作: " ++ n ++ "\n观察: " ++ observation }
    | .error e =>
      let observation := "工具执行失败: " ++ e
      { observation := observation, success := false
        events := [callEv, .error observation,
                   .toolCallResult toolCallId n observation false]
        message := .tool toolCallId observation
        historyEntry := "动作: " ++ n ++ "\n观察: " ++ observation }

/-- Dispatch of one tool call in streaming mode; identical except that
the tool-not-found observation also lists the available tool names. -/
def execCallS (allTools : List Tool) (call : ToolCall) : DispatchOut :=
  let toolCallId := call.id.getD "call_synth"
  let n := call.name
  let callEv := REvent.toolCall toolCallId n call.args
  match allTools.find? (fun t => t.name == n) with
  | none =>
    let names := String.intercalate ", " (allTools.map (fun t => t.name))
    let observation := "工具 \"" ++ n ++ "\" 未找到。可用工具: " ++ names
    { observation := observation, success := false
      events := [callEv, .error observation,
                 .toolCallResult toolCallId n observation false]
      message := .tool toolCallId observation
      historyEntry := "" }
  | some t =>
    match t.execute call.args with
    | .ok observation =>
      { observation := observation, success := true
        events := [callEv, .toolCallResult toolCallId n observation true]
        message := .tool toolCallId observation
        historyEntry := "" }
    | .error e =>
      let observation := "工具执行失败: " ++ e
      { observation := observation, success := false
        events := [callEv, .error observation,
                   .toolCallResult toolCallId n observation false]
        message := .tool toolCallId observation
        historyEntry := "" }

/-- Buffered per-turn dispatch loop over all proposed calls: appends
one tool-result message and one history entry per call. -/
def dispatchB (allTools : List Tool) (calls : List ToolCall)
    (messages : List Message) (history : List String) :
    List Message × List String × List REvent :=
  calls.foldl
    (fun (st : List Message × List String × List REvent) call =>
      let d := execCallB allTools call
      (st.1 ++ [d.message], st.2.1 ++ [d.historyEntry], st.2.2 ++ d.events))
    (messages, history, [])

/-- Streaming per-turn dispatch loop (no history entries; streaming
history records the turn's accumulated text instead). -/
def dispatchS (allTools : List Tool) (calls : List ToolCall)
    (messages : List Message) : List Message × List REvent :=
  calls.foldl
    (fun (st : List Message × List REvent) call =>
      let d := execCallS allTools call
      (st.1 ++ [d.message], st.2 ++ d.events))
    (messages, [])

/-- The empty-turn guard condition: last message has no content and no
tool calls. -/
def lastEmptyTurn (msgs : List Message) : Bool :=
  match msgs.getLast? with
  | some m => msgContent m == "" && (msgToolCalls m).isEmpty
  | none => true

/-- The deterministic iteration-budget fallback answer. -/
def fallbackText (maxIterations : Nat) (history : List String) : String :=
  "已达到最大迭代次数 (" ++ toString maxIterations ++ ")。\n\n" ++
  String.intercalate "\n\n" history

/-- Outcome of one streamed turn: a mid-stream exception (propagating
to the loop's catch), a terminal final answer, or a continuation. -/
inductive StreamOut where
  | errored (e : String) (events : List REvent)
  | final (answer : String) (events : List REvent)
  | next (messages : List Message) (content : String) (events : List REvent)

/-- Processing of one streamed chunk: append the text fragment, feed
the tool-call fragments to the accumulator, and record a `thought`
event when the text fragment is nonempty. -/
def streamFoldStep (iterationId : String)
    (st : String × List AccumulatedToolCall × List REvent)
    (ch : StreamChunk) : String × List AccumulatedToolCall × List REvent :=
  (st.1 ++ ch.content,
   if ch.toolCallChunks.isEmpty then st.2.1
   else mergeToolCalls st.2.1 ch.toolCallChunks,
   st.2.2 ++
     (if ch.content == "" then []
      else [REvent.thought iterationId ch.content false]))

/-- The in-stream loop of one streamed turn, in delivery order. -/
def streamFold (iterationId : String) (chunks : List StreamChunk) :
    String × List AccumulatedToolCall × List REvent :=
  chunks.foldl (streamFoldStep iterationId) ("", [], [])

/-- One streamed turn: forward text fragments as `thought` events
while accumulating tool-call fragments; on stream end emit the thought
completion marker, convert the accumulated calls (JSON-parsing their
argument text), intercept the reserved final-answer tool, otherwise
dispatch every accumulated call. -/
def streamIteration (finalAnswerName : String) (parse : String → Option Json)
    (o : ModelOracle) (allTools : List Tool) (messages : List Message)
    (iterationId : String) (iter : Nat) : StreamOut :=
  let delivered := o.stream messages
  let folded := streamFold iterationId delivered.1
  let accContent := folded.1
  let accCalls := folded.2.1
  let thoughtEvs := folded.2.2
  match delivered.2 with
  | some e => .errored e thoughtEvs
  | none =>
    let completionEv :=
      if accContent == "" then []
      else [REvent.thought iterationId "" true]
    let converted := toLangChainToolCalls parse accCalls
    let toolCalls := converted.1
    let parseEvs := converted.2.map (fun nm =>
      REvent.error ("工具调用参数解析失败: " ++ nm))
    let aiMsg := Message.ai accContent toolCalls
    let messages1 := messages ++ [aiMsg]
    if accCalls.isEmpty then
      .next messages1 accContent (thoughtEvs ++ completionEv ++ parseEvs)
    else
      match toolCalls.find? (fun c => c.name == finalAnswerName) with
      | some c =>
        let answer := extractAnswer c.args accContent
        .final answer
          (thoughtEvs ++ completionEv ++ parseEvs ++
           [.finalResult answer iter])
      | none =>
        let d := dispatchS allTools toolCalls messages1
        .next d.1 accContent (thoughtEvs ++ completionEv ++ parseEvs ++ d.2)

/-- The main ReAct loop, by remaining iterations (`n`) with `iter` the
1-based number of the current turn.  Total by construction: for every
oracle it returns a result string and the emitted event trace — the
embedded `run` cannot throw. -/
def runLoop (cfg : ReActConfig) (parse : String → Option Json)
    (o : ModelOracle) (allTools : List Tool) :
    Nat → Nat → List Message → List String → String × List REvent
  | 0, iter, _, history =>
    let fb := fallbackText cfg.maxIterations history
    (fb, [.finalResult fb (iter - 1)])
  | n+1, iter, messages, history =>
    let iterationId := "thought_" ++ toString iter
    let continueWith :=
      fun (messages' : List Message) (history' : List String)
          (evs : List REvent) =>
        if cfg.streaming = false && lastEmptyTurn messages' then
          let fb := fallbackText cfg.maxIterations history'
          (fb, evs ++ [REvent.finalResult fb iter])
        else
          let r := runLoop cfg parse o allTools n (iter + 1) messages' history'
          (r.1, evs ++ r.2)
    if cfg.streaming then
      match streamIteration cfg.finalAnswerTool.name parse o allTools
          messages iterationId iter with
      | .errored e evs =>
        let evs' := evs ++ [.error ("第 " ++ toString iter ++ " 次迭代失败: " ++ e)]
        let messages' := messages ++
          [Message.human ("发生错误: " ++ e ++ "\n请继续尝试。")]
        continueWith messages' history evs'
      | .final answer evs => (answer, evs)
      | .next messages' content evs =>
        continueWith messages' (history ++ [content]) evs
    else
      match o.invoke messages with
      | .error e =>
        let evs' := [REvent.error ("第 " ++ toString iter ++ " 次迭代失败: " ++ e)]
        let messages' := messages ++
          [Message.human ("发生错误: " ++ e ++ "\n请继续尝试。")]
        continueWith messages' history evs'
      | .ok resp =>
        let content := resp.content
        let evs0 :=
          if content == "" then []
          else [REvent.thought iterationId content true]
        let messages1 := messages ++ [Message.ai content resp.toolCalls]
        if resp.toolCalls.isEmpty then
          continueWith messages1 history evs0
        else
          match resp.toolCalls.find?
              (fun c => c.name == cfg.finalAnswerTool.name) with
          | some c =>
            let answer := extractAnswer c.args content
            (answer, evs0 ++ [.finalResult answer iter])
          | none =>
            let d := dispatchB allTools resp.toolCalls messages1 history
            continueWith d.1 d.2.1 (evs0 ++ d.2.2)

/-- `ReActExecutor.run`: build the prompts and the initial
conversation, then drive the bounded loop. -/
def ReActExecutor.run (cfg : ReActConfig) (parse : String → Option Json)
    (o : ModelOracle) (userInput : String) (context : Option String)
    (tools : List Tool) : String × List REvent :=
  let allTools := tools ++ [cfg.finalAnswerTool]
  let toolDescriptions := formatToolDescriptions tools
  let systemPrompt :=
    cfg.systemPrompt ++ finalAnswerPromptSuffix cfg.finalAnswerTool.name
  let userMessage := defaultUserMessageTemplate userInput toolDescriptions context
  let messages := [Message.system systemPrompt, Message.human userMessage]
  runLoop cfg parse o allTools cfg.maxIterations 1 messages []

/-! Helper lemmas about the engine. -/

theorem append_ne_empty_right (a b : String) (hb : b ≠ "") : a ++ b ≠ "" := by
  intro h
  apply hb
  have hd := congrArg String.data h
  simp [String.data_append] at hd
  exact String.ext hd.2

theorem lastEmptyTurn_append (msgs : List Message) (m : Message)
    (hm : msgContent m ≠ "") : lastEmptyTurn (msgs ++ [m]) = false := by
  unfold lastEmptyTurn
  rw [show (msgs ++ [m]).getLast? = some m by simp]
  simp [Bool.and_eq_false_iff]
  intro hc
  exact absurd (by simpa [beq_iff_eq] using hc) hm

theorem correctiveMsg_ne_empty (e : String) :
    ("发生错误: " ++ e ++ "\n请继续尝试。") ≠ "" :=
  append_ne_empty_right _ _ (by decide)

theorem notFoundObs_ne_empty (n : String) :
    ("工具 \"" ++ n ++ "\" 未找到") ≠ "" :=
  append_ne_empty_right _ _ (by decide)

/-- C7: a failure raised by the model-invocation layer during any turn
is caught inside the loop: an `error` event naming the failing
iteration is emitted, a corrective message is appended to the
conversation, and the loop proceeds to the next turn under the same
iteration cap (one iteration consumed).  `runLoop` — and hence
`ReActExecutor.run` — is a total Lean function of its oracles, so the
embedded run always resolves to a string and can propagate no
exception. -/
theorem runLoop_model_error_recovery (cfg : ReActConfig)
    (parse : String → Option Json) (o : ModelOracle) (allTools : List Tool)
    (n iter : Nat) (messages : List Message) (history : List String)
    (e : String) (hbuf : cfg.streaming = false)
    (herr : o.invoke messages = .error e) :
    runLoop cfg parse o allTools (n + 1) iter messages history =
      (let r := runLoop cfg parse o allTools n (iter + 1)
          (messages ++ [Message.human ("发生错误: " ++ e ++ "\n请继续尝试。")])
          history
       (r.1, REvent.error ("第 " ++ toString iter ++ " 次迭代失败: " ++ e) :: r.2)) := by
  simp only [runLoop, hbuf, herr, Bool.false_eq_true, if_false]
  rw [lastEmptyTurn_append _ _ (by simpa [msgContent] using correctiveMsg_ne_empty e)]
  simp

/-- Exhausting the iteration budget against a model that always
requests one non-existent tool: every remaining turn dispatches (and
records) exactly one failed lookup, and the loop ends with the
deterministic fallback answer and a single `final_result` event. -/
theorem runLoop_ghost_tool (cfg : ReActConfig) (parse : String → Option Json)
    (o : ModelOracle) (allTools : List Tool) (c : String) (call : ToolCall)
    (hbuf : cfg.streaming = false)
    (ho : ∀ msgs, o.invoke msgs = .ok ⟨c, [call]⟩)
    (hfind : allTools.find? (fun t => t.name == call.name) = none)
    (hfa : (call.name == cfg.finalAnswerTool.name) = false) :
    ∀ n iter messages history, ∃ evs,
      runLoop cfg parse o allTools n iter messages history =
        (fallbackText cfg.maxIterations
          (history ++ List.replicate n (execCallB allTools call).historyEntry),
         evs)
      ∧ evs.countP isFinalResultEv = 1
      ∧ evs.countP isToolCallEv = n := by
  intro n
  induction n with
  | zero =>
    intro iter messages history
    refine ⟨[.finalResult (fallbackText cfg.maxIterations history) (iter - 1)],
      by simp [runLoop], by simp [isFinalResultEv], by simp [isToolCallEv]⟩
  | succ n ih =>
    intro iter messages history
    obtain ⟨evs, hrun, h1, h2⟩ :=
      ih (iter + 1)
        (messages ++ [Message.ai c [call]] ++ [(execCallB allTools call).message])
        (history ++ [(execCallB allTools call).historyEntry])
    have hfindcall : ([call].find? (fun x => x.name == cfg.finalAnswerTool.name)) = none := by
      simp [List.find?, hfa]
    have hobs : msgContent (execCallB allTools call).message ≠ "" := by
      simp [execCallB, hfind, msgContent]
      exact notFoundObs_ne_empty call.name
    refine ⟨(if c == "" then []
             else [REvent.thought ("thought_" ++ toString iter) c true]) ++
            (execCallB allTools call).events ++ evs, ?_, ?_, ?_⟩
    · simp only [runLoop, hbuf, ho, Bool.false_eq_true, if_false,
        List.isEmpty_cons, hfindcall, dispatchB, List.foldl_cons, List.foldl_nil]
      rw [lastEmptyTurn_append _ _ hobs]
      simp only [Bool.and_false, Bool.false_eq_true, if_false]
      rw [hrun]
      simp [List.replicate_succ, List.append_assoc]
    · simp [List.countP_append, h1, execCallB, hfind, isFinalResultEv]
    · simp [List.countP_append, h2, execCallB, hfind, isToolCallEv]

/-- C5: When `maxIterations` turns complete without a terminal answer,
`ReActExecutor.run` returns (does not throw — it is a total function of
its oracles) the deterministic fallback: the max-iterations marker
containing the configured iteration count (`fallbackText`), followed by
the concatenation of every turn's recorded history entry; it emits
exactly one `final_result` event.  A model that always requests one
non-existent tool runs exactly `maxIterations` turns — one `tool_call`
event per turn. -/
theorem run_max_iterations_fallback (cfg : ReActConfig)
    (parse : String → Option Json) (o : ModelOracle)
    (userInput : String) (context : Option String) (tools : List Tool)
    (c : String) (call : ToolCall)
    (hbuf : cfg.streaming = false)
    (ho : ∀ msgs, o.invoke msgs = .ok ⟨c, [call]⟩)
    (hfa : (call.name == cfg.finalAnswerTool.name) = false)
    (htool : tools.find? (fun t => t.name == call.name) = none) :
    (ReActExecutor.run cfg parse o userInput context tools).1 =
      fallbackText cfg.maxIterations
        (List.replicate cfg.maxIterations
          (execCallB (tools ++ [cfg.finalAnswerTool]) call).historyEntry)
    ∧ (ReActExecutor.run cfg parse o userInput context tools).2.countP
        isFinalResultEv = 1
    ∧ (ReActExecutor.run cfg parse o userInput context tools).2.countP
        isToolCallEv = cfg.maxIterations := by
  have hne : call.name ≠ cfg.finalAnswerTool.name := by
    simpa [beq_eq_false_iff_ne] using hfa
  have hfindall : (tools ++ [cfg.finalAnswerTool]).find?
      (fun t => t.name == call.name) = none := by
    rw [List.find?_append, htool]
    have : (cfg.finalAnswerTool.name == call.name) = false := by
      simpa [beq_eq_false_iff_ne] using Ne.symm hne
    simp [List.find?, this]
  obtain ⟨evs, hrun, h1, h2⟩ :=
    runLoop_ghost_tool cfg parse o (tools ++ [cfg.finalAnswerTool]) c call
      hbuf ho hfindall hfa cfg.maxIterations 1
      [Message.system (cfg.systemPrompt ++
        finalAnswerPromptSuffix cfg.finalAnswerTool.name),
       Message.human (defaultUserMessageTemplate userInput
        (formatToolDescriptions tools) context)] []
  have hr : ReActExecutor.run cfg parse o userInput context tools =
      (fallbackText cfg.maxIterations
        (List.replicate cfg.maxIterations
          (execCallB (tools ++ [cfg.finalAnswerTool]) call).historyEntry),
       evs) := by
    unfold ReActExecutor.run
    simpa using hrun
  exact ⟨by rw [hr], by rw [hr]; exact h1, by rw [hr]; exact h2⟩

/-- Witness for C5 at a concrete two-iteration configuration with a
model stub that always requests the non-existent tool `ghost`. -/
theorem run_max_iterations_fallback_witness :
    (ReActExecutor.run
      ⟨2, false, "sys", defaultFinalAnswerTool⟩ (fun _ => none)
      ⟨fun _ => .ok ⟨"think", [⟨some "id1", "ghost", Json.null⟩]⟩,
       fun _ => ([], none)⟩ "task" none []).1 =
      fallbackText 2
        (List.replicate 2
          (execCallB ([] ++ [defaultFinalAnswerTool])
            ⟨some "id1", "ghost", Json.null⟩).historyEntry)
    ∧ (ReActExecutor.run
      ⟨2, false, "sys", defaultFinalAnswerTool⟩ (fun _ => none)
      ⟨fun _ => .ok ⟨"think", [⟨some "id1", "ghost", Json.null⟩]⟩,
       fun _ => ([], none)⟩ "task" none []).2.countP isFinalResultEv = 1
    ∧ (ReActExecutor.run
      ⟨2, false, "sys", defaultFinalAnswerTool⟩ (fun _ => none)
      ⟨fun _ => .ok ⟨"think", [⟨some "id1", "ghost", Json.null⟩]⟩,
       fun _ => ([], none)⟩ "task" none []).2.countP isToolCallEv = 2 :=
  run_max_iterations_fallback
    ⟨2, false, "sys", defaultFinalAnswerTool⟩ (fun _ => none)
    ⟨fun _ => .ok ⟨"think", [⟨some "id1", "ghost", Json.null⟩]⟩,
     fun _ => ([], none)⟩ "task" none []
    "think" ⟨some "id1", "ghost", Json.null⟩
    rfl (fun _ => rfl) (by decide) rfl

/-- Witness for C7: a model stub that throws on every invocation, at a
concrete loop state. -/
theorem runLoop_model_error_recovery_witness :
    runLoop ⟨1, false, "sys", defaultFinalAnswerTool⟩ (fun _ => none)
      ⟨fun _ => .error "boom", fun _ => ([], none)⟩ [] (0 + 1) 1 [] [] =
      (let r := runLoop ⟨1, false, "sys", defaultFinalAnswerTool⟩
          (fun _ => none) ⟨fun _ => .error "boom", fun _ => ([], none)⟩ []
          0 (1 + 1)
          ([] ++ [Message.human ("发生错误: " ++ "boom" ++ "\n请继续尝试。")]) []
       (r.1, REvent.error ("第 " ++ toString 1 ++ " 次迭代失败: " ++ "boom") :: r.2)) :=
  runLoop_model_error_recovery ⟨1, false, "sys", defaultFinalAnswerTool⟩
    (fun _ => none) ⟨fun _ => .error "boom", fun _ => ([], none)⟩ []
    0 1 [] [] "boom" rfl rfl

/-- The per-fragment `thought` events recorded by the in-stream fold
contain no events of other kinds. -/
theorem streamFold_events_countP (p : REvent → Bool)
    (hp : ∀ id ch b, p (REvent.thought id ch b) = false)
    (iterationId : String) (chunks : List StreamChunk) :
    ((streamFold iterationId chunks).2.2).countP p = 0 := by
  suffices h : ∀ st : String × List AccumulatedToolCall × List REvent,
      ((chunks.foldl (streamFoldStep iterationId) st).2.2).countP p =
        (st.2.2).countP p by
    simpa [streamFold] using h ("", [], [])
  induction chunks with
  | nil => intro st; rfl
  | cons ch rest ih =>
    intro st
    rw [List.foldl_cons, ih]
    by_cases hc : ch.content == ""
    · simp [streamFoldStep, hc]
    · simp [streamFoldStep, hc, List.countP_append, List.countP_cons, hp]

/-- C4: a call to the reserved final-answer tool in a turn's model
response takes precedence: the engine extracts that call's `answer`
argument (`extractAnswer`) as the terminal answer, emits one
`final_result` event and returns immediately without dispatching any
other tool call proposed in the same turn — in buffered mode (first
conjunct: the turn's full trace is the optional thought event followed
by exactly the `final_result` event) and in streaming mode (second
conjunct: `streamIteration` yields `.final` with zero `tool_call` /
`tool_call_result` events and one `final_result`; third conjunct: the
loop returns a `.final` outcome unchanged). -/
theorem run_final_answer_precedence :
    (∀ (cfg : ReActConfig) (parse : String → Option Json) (o : ModelOracle)
       (allTools : List Tool) (n iter : Nat) (messages : List Message)
       (history : List String) (resp : ModelResponse) (c : ToolCall),
      cfg.streaming = false →
      o.invoke messages = .ok resp →
      resp.toolCalls.find? (fun x => x.name == cfg.finalAnswerTool.name) = some c →
      runLoop cfg parse o allTools (n + 1) iter messages history =
        (extractAnswer c.args resp.content,
         (if resp.content == "" then []
          else [REvent.thought ("thought_" ++ toString iter) resp.content true]) ++
         [.finalResult (extractAnswer c.args resp.content) iter]))
  ∧ (∀ (finalAnswerName : String) (parse : String → Option Json)
       (o : ModelOracle) (allTools : List Tool) (messages : List Message)
       (iterationId : String) (iter : Nat) (chunks : List StreamChunk)
       (c : ToolCall),
      o.stream messages = (chunks, none) →
      (streamFold iterationId chunks).2.1 ≠ [] →
      (toLangChainToolCalls parse (streamFold iterationId chunks).2.1).1.find?
          (fun x => x.name == finalAnswerName) = some c →
      ∃ evs,
        streamIteration finalAnswerName parse o allTools messages
            iterationId iter =
          .final (extractAnswer c.args (streamFold iterationId chunks).1) evs
        ∧ evs.countP isToolCallEv = 0
        ∧ evs.countP isToolCallResultEv = 0
        ∧ evs.countP isFinalResultEv = 1)
  ∧ (∀ (cfg : ReActConfig) (parse : String → Option Json) (o : ModelOracle)
       (allTools : List Tool) (n iter : Nat) (messages : List Message)
       (history : List String) (a : String) (evs : List REvent),
      cfg.streaming = true →
      streamIteration cfg.finalAnswerTool.name parse o allTools messages
          ("thought_" ++ toString iter) iter = .final a evs →
      runLoop cfg parse o allTools (n + 1) iter messages history = (a, evs)) := by
  refine ⟨?_, ?_, ?_⟩
  · intro cfg parse o allTools n iter messages history resp c hbuf ho hfind
    have hne : resp.toolCalls.isEmpty = false := by
      cases h : resp.toolCalls
      · rw [h] at hfind; simp [List.find?] at hfind
      · simp [h]
    simp [runLoop, hbuf, ho, hne, hfind]
  · intro finalAnswerName parse o allTools messages iterationId iter chunks c
      hs hne hfind
    have hnee : ((streamFold iterationId chunks).2.1).isEmpty = false := by
      cases h : (streamFold iterationId chunks).2.1
      · exact absurd h hne
      · simp [h]
    refine ⟨(streamFold iterationId chunks).2.2 ++
      (if (streamFold iterationId chunks).1 == "" then []
       else [REvent.thought iterationId "" true]) ++
      ((toLangChainToolCalls parse (streamFold iterationId chunks).2.1).2.map
        (fun nm => REvent.error ("工具调用参数解析失败: " ++ nm))) ++
      [.finalResult (extractAnswer c.args (streamFold iterationId chunks).1) iter],
      ?_, ?_, ?_, ?_⟩
    · simp only [streamIteration, hs]
      simp [hnee, hfind]
    · simp [List.countP_append, List.countP_map,
        streamFold_events_countP isToolCallEv (fun _ _ _ => rfl),
        isToolCallEv, Function.comp]
    · simp [List.countP_append, List.countP_map,
        streamFold_events_countP isToolCallResultEv (fun _ _ _ => rfl),
        isToolCallResultEv, Function.comp]
    · have herrs : List.countP
          (isFinalResultEv ∘ fun nm => REvent.error ("工具调用参数解析失败: " ++ nm))
          ((toLangChainToolCalls parse (streamFold iterationId chunks).2.1).2) = 0 :=
        List.countP_eq_zero.mpr (fun a _ => by simp [isFinalResultEv, Function.comp])
      have hthought : List.countP isFinalResultEv
          (if (streamFold iterationId chunks).1 = "" then ([] : List REvent)
           else [REvent.thought iterationId "" true]) = 0 := by
        split <;> rfl
      simp [List.countP_append, List.countP_map, hthought, herrs,
        streamFold_events_countP isFinalResultEv (fun _ _ _ => rfl),
        isFinalResultEv]
  · intro cfg parse o allTools n iter messages history a evs hstr hfinal
    simp [runLoop, hstr, hfinal]

/-- Witness for C4 (buffered conjunct) at a concrete turn whose
response carries both an ordinary tool call and a final-answer call. -/
theorem run_final_answer_precedence_witness :
    runLoop ⟨3, false, "sys", defaultFinalAnswerTool⟩ (fun _ => none)
      ⟨fun _ => .ok ⟨"thinking",
        [⟨some "f1", "give_final_answer", Json.obj [("answer", Json.str "42")]⟩,
         ⟨some "c2", "calc", Json.null⟩]⟩,
       fun _ => ([], none)⟩ [] (2 + 1) 1 [] [] =
      (extractAnswer (Json.obj [("answer", Json.str "42")]) "thinking",
       (if "thinking" == "" then []
        else [REvent.thought ("thought_" ++ toString 1) "thinking" true]) ++
       [.finalResult
         (extractAnswer (Json.obj [("answer", Json.str "42")]) "thinking") 1]) :=
  run_final_answer_precedence.1 ⟨3, false, "sys", defaultFinalAnswerTool⟩
    (fun _ => none)
    ⟨fun _ => .ok ⟨"thinking",
      [⟨some "f1", "give_final_answer", Json.obj [("answer", Json.str "42")]⟩,
       ⟨some "c2", "calc", Json.null⟩]⟩,
     fun _ => ([], none)⟩ [] 2 1 [] []
    ⟨"thinking",
      [⟨some "f1", "give_final_answer", Json.obj [("answer", Json.str "42")]⟩,
       ⟨some "c2", "calc", Json.null⟩]⟩
    ⟨some "f1", "give_final_answer", Json.obj [("answer", Json.str "42")]⟩
    rfl rfl rfl

/-- C8 (amended): dispatching a tool call whose name is not in the
engine's tool set synthesizes an observation naming the missing tool —
listing the available tool names in streaming mode only (the buffered
observation is just `工具 "…" 未找到`); a call whose `execute` throws
has the failure message captured into an observation instead of
propagating; the observation is appended to the conversation as a
tool-result message linked to the call id, and the loop continues to
the next turn. -/
theorem tool_dispatch_observations :
    (∀ (allTools : List Tool) (call : ToolCall),
      allTools.find? (fun t => t.name == call.name) = none →
      execCallB allTools call =
        { observation := "工具 \"" ++ call.name ++ "\" 未找到"
          success := false
          events := [.toolCall (call.id.getD "call_synth") call.name call.args,
                     .error ("工具 \"" ++ call.name ++ "\" 未找到"),
                     .toolCallResult (call.id.getD "call_synth") call.name
                       ("工具 \"" ++ call.name ++ "\" 未找到") false]
          message := .tool (call.id.getD "call_synth")
            ("工具 \"" ++ call.name ++ "\" 未找到")
          historyEntry := "动作: " ++ call.name ++ "\n观察: " ++
            ("工具 \"" ++ call.name ++ "\" 未找到") })
  ∧ (∀ (allTools : List Tool) (call : ToolCall),
      allTools.find? (fun t => t.name == call.name) = none →
      (execCallS allTools call).observation =
        "工具 \"" ++ call.name ++ "\" 未找到。可用工具: " ++
          String.intercalate ", " (allTools.map (fun t => t.name))
      ∧ (execCallS allTools call).success = false)
  ∧ (∀ (allTools : List Tool) (call : ToolCall) (t : Tool) (e : String),
      allTools.find? (fun x => x.name == call.name) = some t →
      t.execute call.args = .error e →
      (execCallB allTools call).observation = "工具执行失败: " ++ e
      ∧ (execCallB allTools call).success = false
      ∧ (execCallB allTools call).message =
          .tool (call.id.getD "call_synth") ("工具执行失败: " ++ e)
      ∧ (execCallS allTools call).observation = "工具执行失败: " ++ e)
  ∧ (∀ (cfg : ReActConfig) (parse : String → Option Json) (o : ModelOracle)
       (allTools : List Tool) (n iter : Nat) (messages : List Message)
       (history : List String) (c : String) (call : ToolCall),
      cfg.streaming = false →
      o.invoke messages = .ok ⟨c, [call]⟩ →
      (call.name == cfg.finalAnswerTool.name) = false →
      allTools.find? (fun t => t.name == call.name) = none →
      runLoop cfg parse o allTools (n + 1) iter messages history =
        (let d := execCallB allTools call
         let r := runLoop cfg parse o allTools n (iter + 1)
           (messages ++ [Message.ai c [call]] ++ [d.message])
           (history ++ [d.historyEntry])
         (r.1,
          (if c == "" then []
           else [REvent.thought ("thought_" ++ toString iter) c true]) ++
          d.events ++ r.2))) := by
  refine ⟨?_, ?_, ?_, ?_⟩
  · intro allTools call h
    simp [execCallB, h]
  · intro allTools call h
    simp [execCallS, h]
  · intro allTools call t e hfind hexec
    simp [execCallB, execCallS, hfind, hexec]
  · intro cfg parse o allTools n iter messages history c call hbuf ho hfa hfind
    have hfindcall :
        ([call].find? (fun x => x.name == cfg.finalAnswerTool.name)) = none := by
      simp [List.find?, hfa]
    have hobs : msgContent (execCallB allTools call).message ≠ "" := by
      simp [execCallB, hfind, msgContent]
      exact notFoundObs_ne_empty call.name
    simp only [runLoop, hbuf, ho, Bool.false_eq_true, if_false,
      List.isEmpty_cons, hfindcall, dispatchB, List.foldl_cons, List.foldl_nil]
    rw [lastEmptyTurn_append _ _ hobs]
    simp [Bool.and_false, List.append_assoc]

/-- Witness for C8 at a concrete missing tool and a concrete throwing
tool. -/
theorem tool_dispatch_observations_witness :
    execCallB [] ⟨some "i1", "ghost", Json.null⟩ =
      { observation := "工具 \"" ++ "ghost" ++ "\" 未找到"
        success := false
        events := [.toolCall ((some "i1").getD "call_synth") "ghost" Json.null,
                   .error ("工具 \"" ++ "ghost" ++ "\" 未找到"),
                   .toolCallResult ((some "i1").getD "call_synth") "ghost"
                     ("工具 \"" ++ "ghost" ++ "\" 未找到") false]
        message := .tool ((some "i1").getD "call_synth")
          ("工具 \"" ++ "ghost" ++ "\" 未找到")
        historyEntry := "动作: " ++ "ghost" ++ "\n观察: " ++
          ("工具 \"" ++ "ghost" ++ "\" 未找到") }
    ∧ (execCallB [⟨"boomtool", "throws", fun _ => .error "kaboom"⟩]
        ⟨none, "boomtool", Json.null⟩).observation = "工具执行失败: " ++ "kaboom" :=
  ⟨tool_dispatch_observations.1 [] ⟨some "i1", "ghost", Json.null⟩ rfl,
   (tool_dispatch_observations.2.2.1
      [⟨"boomtool", "throws", fun _ => .error "kaboom"⟩]
      ⟨none, "boomtool", Json.null⟩
      ⟨"boomtool", "throws", fun _ => .error "kaboom"⟩ "kaboom" rfl rfl).1⟩

/-- Counterexample for C8 as frozen: in buffered mode the observation
for a missing tool does **not** list the available tool names — in a
run whose tool set contains `calc`, the synthesized observation is
exactly `工具 "ghost" 未找到`, in which the name `calc` does not occur. -/
theorem tool_dispatch_observations_counterexample :
    (ReActExecutor.run ⟨1, false, "sys", defaultFinalAnswerTool⟩ (fun _ => none)
      ⟨fun _ => .ok ⟨"", [⟨some "id1", "ghost", Json.null⟩]⟩,
       fun _ => ([], none)⟩ "task" none
      [⟨"calc", "calculator", fun _ => .ok "0"⟩]).2.countP
      (fun ev => match ev with
        | .toolCallResult i nm res _ =>
          i == "id1" && nm == "ghost" && res == "工具 \"ghost\" 未找到"
        | _ => false) = 1
    ∧ ¬ List.IsInfix "calc".data "工具 \"ghost\" 未找到".data := by
  constructor
  · rfl
  · decide

/-! ## ReAct engine — legacy variant (`src/core/ReActExecutor.ts`)

The earlier engine without the reserved final-answer tool: a turn with
no tool calls is terminal (`final_answer`), and its event vocabulary is
`thought` / `action` / `observation` / `final_answer` / `error` /
`stream`.  It shares the conversation, tool, oracle and accumulator
types with the current engine. -/

/-- Events of the legacy engine. -/
inductive V1Event where
  | thought (content : String)
  | action (toolName : String) (args : Json)
  | observation (content : String)
  | finalAnswer (content : String)
  | error (message : String)
  | stream (thoughtId : String) (chunk : String) (isThought : Bool)

/-- Whether a legacy event is the terminal `final_answer` event. -/
def isV1FinalAnswer : V1Event → Bool
  | .finalAnswer _ => true
  | _ => false

/-- Whether a legacy event is an `action` (tool call) event. -/
def isV1Action : V1Event → Bool
  | .action _ _ => true
  | _ => false

/-- Legacy engine configuration. -/
structure V1Config where
  maxIterations : Nat
  streaming : Bool
  systemPrompt : String

/-- Outcome of dispatching one call in the legacy engine. -/
structure V1DispatchOut where
  observation : String
  events : List V1Event
  message : Message
  historyEntry : String

/-- Legacy buffered dispatch of one call (tool looked up among the
run's tools only; the not-found observation names just the miss; the
tool-result message falls back to the constant id `call_id`). -/
def v1ExecCallB (tools : List Tool) (call : ToolCall) : V1DispatchOut :=
  let n := call.name
  let actionEv := V1Event.action n call.args
  match tools.find? (fun t => t.name == n) with
  | none =>
    let observation := "工具 \"" ++ n ++ "\" 未找到"
    { observation := observation
      events := [actionEv, .error observation, .observation observation]
      message := .tool (call.id.getD "call_id") observation
      historyEntry := "动作: " ++ n ++ "\n观察: " ++ observation }
  | some t =>
    match t.execute call.args with
    | .ok observation =>
      { observation := observation
        events := [actionEv, .observation observation]
        message := .tool (call.id.getD "call_id") observation
        historyEntry := "动作: " ++ n ++ "\n观察: " ++ observation }
    | .error e =>
      let observation := "工具执行失败: " ++ e
      { observation := observation
        events := [actionEv, .error observation, .observation observation]
        message := .tool (call.id.getD "call_id") observation
        historyEntry := "动作: " ++ n ++ "\n观察: " ++ observation }

/-- Legacy streaming dispatch of one call (the not-found observation
additionally lists the available tool names; the tool-result message
uses the accumulated call id, synthesized by the accumulator when the
stream never supplied one). -/
def v1ExecCallS (tools : List Tool) (call : ToolCall) : V1DispatchOut :=
  let n := call.name
  let actionEv := V1Event.action n call.args
  match tools.find? (fun t => t.name == n) with
  | none =>
    let names := String.intercalate ", " (tools.map (fun t => t.name))
    let observation := "工具 \"" ++ n ++ "\" 未找到。可用工具: " ++ names
    { observation := observation
      events := [actionEv, .error observation, .observation observation]
      message := .tool (call.id.getD "call_synth") observation
      historyEntry := "" }
  | some t =>
    match t.execute call.args with
    | .ok observation =>
      { observation := observation
        events := [actionEv, .observation observation]
        message := .tool (call.id.getD "call_synth") observation
        historyEntry := "" }
    | .error e =>
      let observation := "工具执行失败: " ++ e
      { observation := observation
        events := [actionEv, .error observation, .observation observation]
        message := .tool (call.id.getD "call_synth") observation
        historyEntry := "" }

/-- Legacy buffered per-turn dispatch loop. -/
def v1DispatchB (tools : List Tool) (calls : List ToolCall)
    (messages : List Message) (history : List String) :
    List Message × List String × List V1Event :=
  calls.foldl
    (fun (st : List Message × List String × List V1Event) call =>
      let d := v1ExecCallB tools call
      (st.1 ++ [d.message], st.2.1 ++ [d.historyEntry], st.2.2 ++ d.events))
    (messages, history, [])

/-- Legacy streaming per-turn dispatch loop. -/
def v1DispatchS (tools : List Tool) (calls : List ToolCall)
    (messages : List Message) : List Message × List V1Event :=
  calls.foldl
    (fun (st : List Message × List V1Event) call =>
      let d := v1ExecCallS tools call
      (st.1 ++ [d.message], st.2 ++ d.events))
    (messages, [])

/-- Legacy in-stream loop: `stream` events per nonempty text fragment
(tagged with the turn's thought id), tool-call fragments fed to the
accumulator. -/
def v1StreamFoldStep (iterationId : String)
    (st : String × List AccumulatedToolCall × List V1Event)
    (ch : StreamChunk) : String × List AccumulatedToolCall × List V1Event :=
  (st.1 ++ ch.content,
   if ch.toolCallChunks.isEmpty then st.2.1
   else mergeToolCalls st.2.1 ch.toolCallChunks,
   st.2.2 ++
     (if ch.content == "" then []
      else [V1Event.stream iterationId ch.content true]))

/-- The legacy in-stream loop over one turn's chunks. -/
def v1StreamFold (iterationId : String) (chunks : List StreamChunk) :
    String × List AccumulatedToolCall × List V1Event :=
  chunks.foldl (v1StreamFoldStep iterationId) ("", [], [])

/-- Outcome of one legacy streamed turn. -/
inductive V1StreamOut where
  | errored (e : String) (events : List V1Event)
  | final (answer : String) (events : List V1Event)
  | next (messages : List Message) (content : String) (events : List V1Event)

/-- One legacy streamed turn: stream text fragments, accumulate call
fragments; on stream end emit the complete `thought`, push the
assistant message, and either dispatch the accumulated calls or — when
no call was accumulated — treat the accumulated text as the final
answer. -/
def v1StreamIteration (parse : String → Option Json) (o : ModelOracle)
    (tools : List Tool) (messages : List Message) (iterationId : String) :
    V1StreamOut :=
  let delivered := o.stream messages
  let folded := v1StreamFold iterationId delivered.1
  let accContent := folded.1
  let accCalls := folded.2.1
  let streamEvs := folded.2.2
  match delivered.2 with
  | some e => .errored e streamEvs
  | none =>
    let thoughtEv :=
      if accContent == "" then [] else [V1Event.thought accContent]
    let converted := toLangChainToolCalls parse accCalls
    let toolCalls := converted.1
    let parseEvs := converted.2.map (fun nm =>
      V1Event.error ("工具调用参数解析失败: " ++ nm))
    let messages1 := messages ++ [Message.ai accContent toolCalls]
    if accCalls.isEmpty then
      .final accContent (streamEvs ++ thoughtEv ++ parseEvs ++
        [.finalAnswer accContent])
    else
      let d := v1DispatchS tools toolCalls messages1
      .next d.1 accContent (streamEvs ++ thoughtEv ++ parseEvs ++ d.2)

/-- The legacy main loop: a buffered turn with no tool calls is
terminal (its free text is the final answer); there is no empty-turn
guard; budget exhaustion falls back exactly as in the current engine. -/
def v1RunLoop (cfg : V1Config) (parse : String → Option Json)
    (o : ModelOracle) (tools : List Tool) :
    Nat → Nat → List Message → List String → String × List V1Event
  | 0, _, _, history =>
    let fb := fallbackText cfg.maxIterations history
    (fb, [.finalAnswer fb])
  | n+1, iter, messages, history =>
    let iterationId := "thought_" ++ toString iter
    if cfg.streaming then
      match v1StreamIteration parse o tools messages iterationId with
      | .errored e evs =>
        let evs' := evs ++
          [.error ("第 " ++ toString iter ++ " 次迭代失败: " ++ e)]
        let messages' := messages ++
          [Message.human ("发生错误: " ++ e ++ "\n请继续尝试。")]
        let r := v1RunLoop cfg parse o tools n (iter + 1) messages' history
        (r.1, evs' ++ r.2)
      | .final answer evs => (answer, evs)
      | .next messages' content evs =>
        let r := v1RunLoop cfg parse o tools n (iter + 1) messages'
          (history ++ [content])
        (r.1, evs ++ r.2)
    else
      match o.invoke messages with
      | .error e =>
        let evs' := [V1Event.error ("第 " ++ toString iter ++ " 次迭代失败: " ++ e)]
        let messages' := messages ++
          [Message.human ("发生错误: " ++ e ++ "\n请继续尝试。")]
        let r := v1RunLoop cfg parse o tools n (iter + 1) messages' history
        (r.1, evs' ++ r.2)
      | .ok resp =>
        let content := resp.content
        let evs0 :=
          if content == "" then [] else [V1Event.thought content]
        let messages1 := messages ++ [Message.ai content resp.toolCalls]
        if resp.toolCalls.isEmpty then
          (content, evs0 ++ [.finalAnswer content])
        else
          let d := v1DispatchB tools resp.toolCalls messages1 history
          let r := v1RunLoop cfg parse o tools n (iter + 1) d.1 d.2.1
          (r.1, evs0 ++ d.2.2 ++ r.2)

/-- The legacy `ReActExecutor.run`: initial conversation (context
prepended to the user message when present and nonempty), then the
bounded loop. -/
def v1Run (cfg : V1Config) (parse : String → Option Json) (o : ModelOracle)
    (userInput : String) (context : Option String) (tools : List Tool) :
    String × List V1Event :=
  let toolDescriptions := formatToolDescriptions tools
  let base := "任务: " ++ userInput ++ "\n\n可用工具:\n" ++ toolDescriptions
  let userMessage :=
    match context with
    | some c =>
      if c == "" then base else "之前步骤的上下文:\n" ++ c ++ "\n\n" ++ base
    | none => base
  let messages := [Message.system cfg.systemPrompt, Message.human userMessage]
  v1RunLoop cfg parse o tools cfg.maxIterations 1 messages []

/-- C3 (amended): in the legacy engine (`src/core/ReActExecutor.ts`), a
model turn yielding free text and no tool calls is terminal — the loop
stops and `run` returns that text, with exactly one terminal
`final_answer` event and zero `action` events, in both buffered (first
and fourth conjuncts) and streaming (second and third conjuncts)
modes.  In the current engine holding the reserved final-answer tool,
such a turn does **not** terminate the loop (see the counterexample):
there termination requires the final-answer tool, the empty-turn
guard, or the iteration budget. -/
theorem free_text_terminal_legacy :
    (∀ (cfg : V1Config) (parse : String → Option Json) (o : ModelOracle)
       (tools : List Tool) (n iter : Nat) (messages : List Message)
       (history : List String) (resp : ModelResponse),
      cfg.streaming = false →
      o.invoke messages = .ok resp →
      resp.toolCalls = [] →
      v1RunLoop cfg parse o tools (n + 1) iter messages history =
        (resp.content,
         (if resp.content == "" then [] else [V1Event.thought resp.content]) ++
         [.finalAnswer resp.content]))
  ∧ (∀ (parse : String → Option Json) (o : ModelOracle) (tools : List Tool)
       (messages : List Message) (iterationId : String)
       (chunks : List StreamChunk),
      o.stream messages = (chunks, none) →
      (v1StreamFold iterationId chunks).2.1 = [] →
      v1StreamIteration parse o tools messages iterationId =
        .final (v1StreamFold iterationId chunks).1
          ((v1StreamFold iterationId chunks).2.2 ++
           (if (v1StreamFold iterationId chunks).1 == "" then []
            else [V1Event.thought (v1StreamFold iterationId chunks).1]) ++
           [] ++
           [.finalAnswer (v1StreamFold iterationId chunks).1]))
  ∧ (∀ (cfg : V1Config) (parse : String → Option Json) (o : ModelOracle)
       (tools : List Tool) (n iter : Nat) (messages : List Message)
       (history : List String) (a : String) (evs : List V1Event),
      cfg.streaming = true →
      v1StreamIteration parse o tools messages ("thought_" ++ toString iter) =
        .final a evs →
      v1RunLoop cfg parse o tools (n + 1) iter messages history = (a, evs))
  ∧ (∀ (cfg : V1Config) (parse : String → Option Json) (o : ModelOracle)
       (userInput : String) (context : Option String) (tools : List Tool)
       (t : String),
      cfg.streaming = false →
      0 < cfg.maxIterations →
      (∀ msgs, o.invoke msgs = .ok ⟨t, []⟩) →
      (v1Run cfg parse o userInput context tools).1 = t
      ∧ (v1Run cfg parse o userInput context tools).2.countP isV1FinalAnswer = 1
      ∧ (v1Run cfg parse o userInput context tools).2.countP isV1Action = 0) := by
  have h1 : ∀ (cfg : V1Config) (parse : String → Option Json) (o : ModelOracle)
      (tools : List Tool) (n iter : Nat) (messages : List Message)
      (history : List String) (resp : ModelResponse),
      cfg.streaming = false →
      o.invoke messages = .ok resp →
      resp.toolCalls = [] →
      v1RunLoop cfg parse o tools (n + 1) iter messages history =
        (resp.content,
         (if resp.content == "" then [] else [V1Event.thought resp.content]) ++
         [.finalAnswer resp.content]) := by
    intro cfg parse o tools n iter messages history resp hbuf ho hempty
    simp [v1RunLoop, hbuf, ho, hempty]
  refine ⟨h1, ?_, ?_, ?_⟩
  · intro parse o tools messages iterationId chunks hs hacc
    simp [v1StreamIteration, hs, hacc, toLangChainToolCalls]
  · intro cfg parse o tools n iter messages history a evs hstr hfinal
    simp [v1RunLoop, hstr, hfinal]
  · intro cfg parse o userInput context tools t hbuf hpos ho
    obtain ⟨m, hm⟩ : ∃ m, cfg.maxIterations = m + 1 :=
      ⟨cfg.maxIterations - 1, by omega⟩
    have hr := h1 cfg parse o tools m 1
      [Message.system cfg.systemPrompt,
       Message.human
         (match context with
          | some c =>
            if c == "" then
              "任务: " ++ userInput ++ "\n\n可用工具:\n" ++
                formatToolDescriptions tools
            else
              "之前步骤的上下文:\n" ++ c ++ "\n\n" ++
                ("任务: " ++ userInput ++ "\n\n可用工具:\n" ++
                  formatToolDescriptions tools)
          | none =>
            "任务: " ++ userInput ++ "\n\n可用工具:\n" ++
              formatToolDescriptions tools)]
      [] ⟨t, []⟩ hbuf (ho _) rfl
    have hrun : v1Run cfg parse o userInput context tools =
        (t, (if t == "" then [] else [V1Event.thought t]) ++
            [.finalAnswer t]) := by
      unfold v1Run
      rw [hm]
      cases context with
      | none => simpa using hr
      | some c => by_cases hc : c == "" <;> simp [hc] at hr ⊢ <;> exact hr
    refine ⟨by rw [hrun], ?_, ?_⟩
    · rw [hrun]
      by_cases h : t == "" <;> simp [h, isV1FinalAnswer]
    · rw [hrun]
      by_cases h : t == "" <;> simp [h, isV1Action]

/-- Witness for C3 (amended) at a concrete legacy run whose model stub
immediately returns final text with no tool calls. -/
theorem free_text_terminal_legacy_witness :
    (v1Run ⟨3, false, "sys"⟩ (fun _ => none)
      ⟨fun _ => .ok ⟨"the answer", []⟩, fun _ => ([], none)⟩
      "task" none []).1 = "the answer"
    ∧ (v1Run ⟨3, false, "sys"⟩ (fun _ => none)
        ⟨fun _ => .ok ⟨"the answer", []⟩, fun _ => ([], none)⟩
        "task" none []).2.countP isV1FinalAnswer = 1
    ∧ (v1Run ⟨3, false, "sys"⟩ (fun _ => none)
        ⟨fun _ => .ok ⟨"the answer", []⟩, fun _ => ([], none)⟩
        "task" none []).2.countP isV1Action = 0 :=
  free_text_terminal_legacy.2.2.2 ⟨3, false, "sys"⟩ (fun _ => none)
    ⟨fun _ => .ok ⟨"the answer", []⟩, fun _ => ([], none)⟩
    "task" none [] "the answer" rfl (by decide) (fun _ => rfl)

/-- Counterexample for C3 as frozen: in the current engine (the one
whose event vocabulary is `final_result`/`tool_call`), a model turn
yielding the free text `hello` and no tool calls does **not** stop the
loop — with a two-iteration budget the run consumes both turns and
returns the budget fallback, not `hello`. -/
theorem free_text_terminal_counterexample :
    (ReActExecutor.run ⟨2, false, "sys", defaultFinalAnswerTool⟩
      (fun _ => none)
      ⟨fun _ => .ok ⟨"hello", []⟩, fun _ => ([], none)⟩
      "task" none []).1 = fallbackText 2 []
    ∧ fallbackText 2 [] ≠ "hello" :=
  ⟨rfl, by decide⟩

/-! ## Planner orchestrator (`PlannerExecutor`)

The outer loop: one forced structured call obtains the plan; eligible
steps run sequentially through a freshly scoped inner engine; each
executed step may trigger one bounded replan; a final model call
synthesizes the response; the whole body is guarded by one try/catch.
The inner engine is abstracted by the oracle's `execStep` (it returns
a string and never throws — see the current-engine theorems); the
planner's structured model calls (`generatePlan`'s forced tool call,
`refinePlan`, `generateFinalResponse`) are oracle fields returning
`Except`, `.error` embedding a thrown exception.  The history entry's
wall-clock timestamp is embedded as the loop counter. -/

/-- Status of a plan step. -/
inductive StepStatus where
  | pending
  | in_progress
  | done
  | failed
  | skipped
deriving DecidableEq

/-- A plan step. -/
structure PlanStep where
  id : String
  description : String
  status : StepStatus
  requiredTools : Option (List String)
  dependencies : Option (List String)
  result : Option String
deriving DecidableEq

/-- A history entry of one executed step. -/
structure PlanHistoryEntry where
  stepId : String
  result : String
  timestamp : Nat
deriving DecidableEq

/-- A plan. -/
structure Plan where
  goal : String
  steps : List PlanStep
  reasoning : String
  history : List PlanHistoryEntry
deriving DecidableEq

/-- Events of the planner (`thought`/`error` via `onMessage`, plan
snapshots via `onPlanUpdate`; the inner engine's own events pass
through the same observer and are abstracted away with it). -/
inductive PEvent where
  | thought (content : String)
  | error (message : String)
  | planUpdate (plan : Plan)

/-- A step of the structured `generate_plan` output (`PlanSchema`). -/
structure GenStep where
  id : String
  description : String
  requiredTools : Option (List String)
  dependencies : Option (List String)

/-- The structured `generate_plan` output (`PlanSchema`). -/
structure PlanData where
  goal : String
  steps : List GenStep
  reasoning : String

/-- Statuses a replan step may carry (`PlanRefinementSchema`). -/
inductive RStatus where
  | pending
  | skipped
deriving DecidableEq

/-- A step of the structured refinement output. -/
structure RStep where
  id : String
  description : String
  requiredTools : Option (List String)
  status : Option RStatus

/-- The structured refinement output (`PlanRefinementSchema`). -/
structure PlanRefinement where
  shouldReplan : Bool
  reasoning : String
  updatedSteps : Option (List RStep)

/-- The planner's collaborators: the forced plan-generation call (the
model's tool calls, name and arguments), the inner engine run per step
(input, rendered context, scoped tool names — total, the inner `run`
never throws), the per-step refinement call, and the final-response
call. -/
structure PlannerOracle where
  genPlanCalls : Except String (List (String × PlanData))
  execStep : String → String → List String → String
  refine : Nat → Except String PlanRefinement
  finalResponse : Plan → Except String String

/-- A plan is complete iff every step is `done` or `skipped`. -/
def isPlanComplete (plan : Plan) : Bool :=
  plan.steps.all (fun s => s.status == .done || s.status == .skipped)

/-- Eligibility of a step: `pending`, and every listed dependency id
resolves (by first match over the whole step list) to a `done` step. -/
def canRun (all : List PlanStep) (step : PlanStep) : Bool :=
  step.status == .pending &&
  (match step.dependencies with
   | some deps =>
     if deps.isEmpty then true
     else deps.all (fun depId =>
       match all.find? (fun s => s.id == depId) with
       | some dep => dep.status == .done
       | none => false)
   | none => true)

/-- First element satisfying `p`, with its position. -/
def findFirstIdx (p : α → Bool) : List α → Option (Nat × α)
  | [] => none
  | x :: rest =>
    if p x then some (0, x)
    else (findFirstIdx p rest).map (fun r => (r.1 + 1, r.2))

/-- `getNextStep`: the first step, in original order, that is eligible
(`Array.prototype.find`, with the position needed to update it). -/
def getNextStep (plan : Plan) : Option (Nat × PlanStep) :=
  findFirstIdx (canRun plan.steps) plan.steps

/-- The tool subset scoped to a step (`requiredTools` allow-list when
present and nonempty, the full set otherwise). -/
def getToolsForStep (step : PlanStep) (allTools : List Tool) : List Tool :=
  match step.requiredTools with
  | some req =>
    if req.isEmpty then allTools
    else allTools.filter (fun t => req.contains t.name)
  | none => allTools

/-- The rendered transcript of previously recorded step results,
passed as context to the inner engine. -/
def formatPlanHistory (plan : Plan) : String :=
  if plan.history.isEmpty then ""
  else
    let entries := plan.history.map (fun entry =>
      let desc :=
        match plan.steps.find? (fun s => s.id == entry.stepId) with
        | some s => if s.description == "" then "未知" else s.description
        | none => "未知"
      "步骤 " ++ entry.stepId ++ " (" ++ desc ++ "): " ++ entry.result)
    "之前步骤的结果:\n" ++ String.intercalate "\n\n" entries

/-- A generated step enters the plan as `pending` with no result. -/
def mkPlanStep (s : GenStep) : PlanStep :=
  { id := s.id, description := s.description, status := .pending,
    requiredTools := s.requiredTools, dependencies := s.dependencies,
    result := none }

/-- `generatePlan`: the forced structured call must return a
`generate_plan` tool call; no tool call, or an unexpected name, is a
thrown error (fatal to the run). -/
def generatePlan (o : PlannerOracle) : Except String Plan :=
  match o.genPlanCalls with
  | .error e => .error e
  | .ok calls =>
    match calls with
    | [] => .error "LLM 未返回计划工具调用"
    | (nm, planData) :: _ =>
      if nm == "generate_plan" then
        .ok { goal := planData.goal, steps := planData.steps.map mkPlanStep,
              reasoning := planData.reasoning, history := [] }
      else .error ("意外的工具调用: " ++ nm)

/-- A replacement step enters the plan with status defaulted to
`pending` unless explicitly `skipped` (`s.status || 'pending'`), and
with no dependencies and no result (the refinement schema carries
none). -/
def mkReplanStep (s : RStep) : PlanStep :=
  { id := s.id, description := s.description,
    status :=
      match s.status with
      | some .pending => .pending
      | some .skipped => .skipped
      | none => .pending,
    requiredTools := s.requiredTools, dependencies := none, result := none }

/-- The ids of the `done` steps. -/
def doneIds (steps : List PlanStep) : List String :=
  (steps.filter (fun s => s.status == .done)).map (fun s => s.id)

/-- The replan splice: keep the steps whose id is that of a completed
step, in original order, and append the replacement steps. -/
def applyReplan (steps : List PlanStep) (updated : List RStep) : List PlanStep :=
  steps.filter (fun s => (doneIds steps).contains s.id) ++
    updated.map mkReplanStep

/-- Whether a step still needs work (neither `done` nor `skipped`). -/
def notDoneOrSkipped (s : PlanStep) : Bool :=
  !(s.status == .done || s.status == .skipped)

/-- The number of steps still needing work (the termination measure of
the planner loop between replans). -/
def countIncomplete (steps : List PlanStep) : Nat :=
  steps.countP notDoneOrSkipped

/-- Outcome of the planner loop. -/
inductive LoopOut where
  | finished (plan : Plan)
  | failed (e : String)

/-! Lemmas needed by the loop's termination argument. -/

theorem findFirstIdx_some_spec {p : α → Bool} :
    ∀ {l : List α} {j : Nat} {x : α}, findFirstIdx p l = some (j, x) →
      l[j]? = some x ∧ p x = true ∧
        ∀ k y, k < j → l[k]? = some y → p y = false := by
  intro l
  induction l with
  | nil => intro j x h; simp [findFirstIdx] at h
  | cons a rest ih =>
    intro j x h
    by_cases ha : p a
    · simp [findFirstIdx, ha] at h
      obtain ⟨hj, hx⟩ := h
      subst hj
      subst hx
      exact ⟨by simp, ha, by intro k y hk; omega⟩
    · simp only [findFirstIdx, ha, Bool.false_eq_true, if_false,
        Option.map_eq_some'] at h
      obtain ⟨⟨j', x'⟩, hrec, hpair⟩ := h
      have hj : j' + 1 = j := congrArg Prod.fst hpair
      have hx : x' = x := congrArg Prod.snd hpair
      subst hx
      rw [← hj]
      obtain ⟨hget, hpx, hmin⟩ := ih hrec
      refine ⟨by simpa using hget, hpx, ?_⟩
      intro k y hk hky
      match k, hky with
      | 0, hky =>
        simp at hky
        rw [← hky]
        simpa using ha
      | k' + 1, hky =>
        exact hmin k' y (by omega) (by simpa using hky)

theorem findFirstIdx_none_spec {p : α → Bool} :
    ∀ {l : List α}, findFirstIdx p l = none → ∀ x ∈ l, p x = false := by
  intro l
  induction l with
  | nil => intro _ x hx; simp at hx
  | cons a rest ih =>
    intro h x hx
    by_cases ha : p a
    · simp [findFirstIdx, ha] at h
    · simp [findFirstIdx, ha] at h
      rcases List.mem_cons.mp hx with hx | hx
      · rw [hx]; simpa using ha
      · exact ih h x hx

theorem canRun_pending {all : List PlanStep} {step : PlanStep}
    (h : canRun all step = true) : step.status = .pending := by
  have := (Bool.and_eq_true _ _).mp h
  simpa [beq_iff_eq] using this.1

theorem countP_set_lt : ∀ (steps : List PlanStep) (i : Nat)
    (step newStep : PlanStep), steps[i]? = some step →
    notDoneOrSkipped step = true → notDoneOrSkipped newStep = false →
    countIncomplete (steps.set i newStep) < countIncomplete steps := by
  intro steps
  induction steps with
  | nil => intro i step newStep h; simp at h
  | cons a rest ih =>
    intro i step newStep hget hold hnew
    cases i with
    | zero =>
      simp at hget
      subst hget
      simp [countIncomplete, List.countP_cons, hold, hnew]
    | succ i' =>
      simp at hget
      have := ih i' step newStep hget hold hnew
      simp [countIncomplete, List.countP_cons] at this ⊢
      omega

/-- The selected step marked `in_progress` (the snapshot emitted by
the first `plan_update` of an iteration). -/
def markInProgress (plan : Plan) (i : Nat) (step : PlanStep) : Plan :=
  { plan with
    steps := plan.steps.set i { step with status := .in_progress } }

/-- The inner engine's answer for the selected step: input is the step
description, context the rendered history, tools the scoped subset. -/
def stepResultOf (o : PlannerOracle) (tools : List Tool) (plan : Plan)
    (i : Nat) (step : PlanStep) : String :=
  o.execStep step.description (formatPlanHistory (markInProgress plan i step))
    ((getToolsForStep step tools).map (fun t => t.name))

/-- The selected step unconditionally marked `done` with the engine's
string recorded as its result, and the history entry appended. -/
def markDone (plan : Plan) (i : Nat) (step : PlanStep) (res : String)
    (k : Nat) : Plan :=
  { plan with
    steps := plan.steps.set i { step with status := .done, result := some res },
    history := plan.history ++ [⟨step.id, res, k⟩] }

/-- The planner's main loop (`while (!isPlanComplete(plan))`), carried
by the replan-attempt counter and the loop counter `k` that indexes
the oracle's per-iteration answers.  Terminates for every oracle —
lexicographically on (remaining replan budget, steps still needing
work): an iteration either consumes one replan attempt or completes
one pending step.  Returns the outcome with the trace of planner
events from this point on. -/
def plannerLoop (o : PlannerOracle) (tools : List Tool) (maxRe : Nat)
    (attempts : Nat) (k : Nat) (plan : Plan) : LoopOut × List PEvent :=
  if isPlanComplete plan then (.finished plan, [])
  else
    match hstep : getNextStep plan with
    | none => (.finished plan, [])
    | some (i, step) =>
      let plan1 := markInProgress plan i step
      let stepResult := stepResultOf o tools plan i step
      let plan2 := markDone plan i step stepResult k
      let evs0 := [PEvent.planUpdate plan1,
                   .thought ("正在执行步骤 " ++ step.id ++ ": " ++ step.description),
                   .planUpdate plan2]
      if hA : attempts < maxRe then
        match o.refine k with
        | .error e => (.failed e, evs0)
        | .ok ref =>
          match ref.updatedSteps, ref.shouldReplan with
          | some u, true =>
            let plan3 := { plan2 with steps := applyReplan plan2.steps u }
            let r := plannerLoop o tools maxRe (attempts + 1) (k + 1) plan3
            (r.1, evs0 ++
              [.thought ("重规划中: " ++ ref.reasoning), .planUpdate plan3] ++ r.2)
          | _, _ =>
            let r := plannerLoop o tools maxRe attempts (k + 1) plan2
            (r.1, evs0 ++ r.2)
      else
        let r := plannerLoop o tools maxRe attempts (k + 1) plan2
        (r.1, evs0 ++ r.2)
termination_by (maxRe - attempts, countIncomplete plan.steps)
decreasing_by
  all_goals
    first
      | (apply Prod.Lex.left
         omega)
      | (obtain ⟨hget, hcan, _⟩ := findFirstIdx_some_spec hstep
         apply Prod.Lex.right
         simp only [markDone]
         exact countP_set_lt plan.steps i step _ hget
           (by simp [notDoneOrSkipped, canRun_pending hcan])
           (by simp [notDoneOrSkipped]))

/-- The planner's result record. -/
structure PlannerResult where
  success : Bool
  response : String
  plan : Plan

/-- The plan returned on the failure path: the original goal, empty
steps and history. -/
def failurePlan (goal : String) : Plan :=
  { goal := goal, steps := [], reasoning := "计划执行失败", history := [] }

/-- `PlannerExecutor.run`: generate the plan, drive the loop, and
synthesize the final response, all inside one try/catch.  Total by
construction — every failure path yields the `success := false` record
and an `error` event, never an exception. -/
def PlannerExecutor.run (o : PlannerOracle) (tools : List Tool)
    (maxRe : Nat) (goal : String) : PlannerResult × List PEvent :=
  match generatePlan o with
  | .error e =>
    ({ success := false, response := "无法完成计划: " ++ e,
       plan := failurePlan goal },
     [.error ("规划器失败: " ++ e)])
  | .ok plan =>
    match plannerLoop o tools maxRe 0 0 plan with
    | (.failed e, evs) =>
      ({ success := false, response := "无法完成计划: " ++ e,
         plan := failurePlan goal },
       evs ++ [.error ("规划器失败: " ++ e)])
    | (.finished plan', evs) =>
      match o.finalResponse plan' with
      | .error e =>
        ({ success := false, response := "无法完成计划: " ++ e,
           plan := failurePlan goal },
         evs ++ [.error ("规划器失败: " ++ e)])
      | .ok resp =>
        ({ success := true, response := resp, plan := plan' }, evs)

/-! Unfolding equations of the planner loop, one per source branch. -/

theorem plannerLoop_complete (o : PlannerOracle) (tools : List Tool)
    (maxRe attempts k : Nat) (plan : Plan)
    (h : isPlanComplete plan = true) :
    plannerLoop o tools maxRe attempts k plan = (.finished plan, []) := by
  unfold plannerLoop
  simp [h]

theorem plannerLoop_stuck (o : PlannerOracle) (tools : List Tool)
    (maxRe attempts k : Nat) (plan : Plan)
    (h1 : isPlanComplete plan = false) (h2 : getNextStep plan = none) :
    plannerLoop o tools maxRe attempts k plan = (.finished plan, []) := by
  unfold plannerLoop
  simp only [h1, Bool.false_eq_true, if_false]
  split
  · rfl
  · rename_i i' step' heq
    rw [h2] at heq
    exact Option.noConfusion heq

theorem plannerLoop_refine_error (o : PlannerOracle) (tools : List Tool)
    (maxRe attempts k : Nat) (plan : Plan) (i : Nat) (step : PlanStep)
    (e : String)
    (h1 : isPlanComplete plan = false)
    (hstep : getNextStep plan = some (i, step))
    (hA : attempts < maxRe)
    (href : o.refine k = .error e) :
    plannerLoop o tools maxRe attempts k plan =
      (.failed e,
       [PEvent.planUpdate (markInProgress plan i step),
        .thought ("正在执行步骤 " ++ step.id ++ ": " ++ step.description),
        .planUpdate (markDone plan i step (stepResultOf o tools plan i step) k)]) := by
  unfold plannerLoop
  simp only [h1, Bool.false_eq_true, if_false]
  split
  · rename_i heq
    rw [hstep] at heq
    exact Option.noConfusion heq
  · rename_i i' step' heq
    rw [hstep] at heq
    have hpair := Option.some.inj heq
    have hi : i = i' := congrArg Prod.fst hpair
    have hs' : step = step' := congrArg Prod.snd hpair
    subst hi
    subst hs'
    simp [hA, href]

theorem plannerLoop_replan (o : PlannerOracle) (tools : List Tool)
    (maxRe attempts k : Nat) (plan : Plan) (i : Nat) (step : PlanStep)
    (ref : PlanRefinement) (u : List RStep)
    (h1 : isPlanComplete plan = false)
    (hstep : getNextStep plan = some (i, step))
    (hA : attempts < maxRe)
    (href : o.refine k = .ok ref)
    (hu : ref.updatedSteps = some u)
    (hs : ref.shouldReplan = true) :
    plannerLoop o tools maxRe attempts k plan =
      (let plan2 := markDone plan i step (stepResultOf o tools plan i step) k
       let plan3 := { plan2 with steps := applyReplan plan2.steps u }
       let r := plannerLoop o tools maxRe (attempts + 1) (k + 1) plan3
       (r.1,
        [PEvent.planUpdate (markInProgress plan i step),
         .thought ("正在执行步骤 " ++ step.id ++ ": " ++ step.description),
         .planUpdate plan2, .thought ("重规划中: " ++ ref.reasoning),
         .planUpdate plan3] ++ r.2)) := by
  conv_lhs => unfold plannerLoop
  simp only [h1, Bool.false_eq_true, if_false]
  split
  · rename_i heq
    rw [hstep] at heq
    exact Option.noConfusion heq
  · rename_i i' step' heq
    rw [hstep] at heq
    have hpair := Option.some.inj heq
    have hi : i = i' := congrArg Prod.fst hpair
    have hs2 : step = step' := congrArg Prod.snd hpair
    subst hi
    subst hs2
    simp [hA, href, hu, hs]

theorem plannerLoop_no_replan (o : PlannerOracle) (tools : List Tool)
    (maxRe attempts k : Nat) (plan : Plan) (i : Nat) (step : PlanStep)
    (ref : PlanRefinement)
    (h1 : isPlanComplete plan = false)
    (hstep : getNextStep plan = some (i, step))
    (hA : attempts < maxRe)
    (href : o.refine k = .ok ref)
    (hno : ref.updatedSteps = none ∨ ref.shouldReplan = false) :
    plannerLoop o tools maxRe attempts k plan =
      (let plan2 := markDone plan i step (stepResultOf o tools plan i step) k
       let r := plannerLoop o tools maxRe attempts (k + 1) plan2
       (r.1,
        [PEvent.planUpdate (markInProgress plan i step),
         .thought ("正在执行步骤 " ++ step.id ++ ": " ++ step.description),
         .planUpdate plan2] ++ r.2)) := by
  conv_lhs => unfold plannerLoop
  simp only [h1, Bool.false_eq_true, if_false]
  split
  · rename_i heq
    rw [hstep] at heq
    exact Option.noConfusion heq
  · rename_i i' step' heq
    rw [hstep] at heq
    have hpair := Option.some.inj heq
    have hi : i = i' := congrArg Prod.fst hpair
    have hs2 : step = step' := congrArg Prod.snd hpair
    subst hi
    subst hs2
    rcases hno with hno | hno
    · cases hsr : ref.shouldReplan <;> simp [hA, href, hno, hsr]
    · cases hus : ref.updatedSteps <;> simp [hA, href, hno, hus]

theorem plannerLoop_budget_spent (o : PlannerOracle) (tools : List Tool)
    (maxRe attempts k : Nat) (plan : Plan) (i : Nat) (step : PlanStep)
    (h1 : isPlanComplete plan = false)
    (hstep : getNextStep plan = some (i, step))
    (hA : ¬ attempts < maxRe) :
    plannerLoop o tools maxRe attempts k plan =
      (let plan2 := markDone plan i step (stepResultOf o tools plan i step) k
       let r := plannerLoop o tools maxRe attempts (k + 1) plan2
       (r.1,
        [PEvent.planUpdate (markInProgress plan i step),
         .thought ("正在执行步骤 " ++ step.id ++ ": " ++ step.description),
         .planUpdate plan2] ++ r.2)) := by
  conv_lhs => unfold plannerLoop
  simp only [h1, Bool.false_eq_true, if_false]
  split
  · rename_i heq
    rw [hstep] at heq
    exact Option.noConfusion heq
  · rename_i i' step' heq
    rw [hstep] at heq
    have hpair := Option.some.inj heq
    have hi : i = i' := congrArg Prod.fst hpair
    have hs2 : step = step' := congrArg Prod.snd hpair
    subst hi
    subst hs2
    simp [hA]

/-- C2: a plan step is set to `in_progress` only if it is the first
step in original order that is `pending` with every listed dependency
resolving to a `done` step (`canRun`): `getNextStep` returns exactly
that step (first conjunct) or `none` when no step is eligible (second
conjunct); when no eligible step exists while the plan is incomplete,
the loop exits immediately instead of iterating (third conjunct —
`plannerLoop` is moreover total by construction, so no execution
iterates forever); and the only `in_progress` marking an iteration
performs is the first `plan_update` snapshot, at the step `getNextStep`
selected (fourth conjunct). -/
theorem planner_step_selection :
    (∀ (plan : Plan) (i : Nat) (step : PlanStep),
      getNextStep plan = some (i, step) →
      plan.steps[i]? = some step ∧ canRun plan.steps step = true ∧
        ∀ j y, j < i → plan.steps[j]? = some y → canRun plan.steps y = false)
  ∧ (∀ plan : Plan, getNextStep plan = none →
      ∀ s ∈ plan.steps, canRun plan.steps s = false)
  ∧ (∀ (o : PlannerOracle) (tools : List Tool) (maxRe attempts k : Nat)
       (plan : Plan), isPlanComplete plan = false → getNextStep plan = none →
      plannerLoop o tools maxRe attempts k plan = (.finished plan, []))
  ∧ (∀ (o : PlannerOracle) (tools : List Tool) (maxRe attempts k : Nat)
       (plan : Plan) (i : Nat) (step : PlanStep),
      isPlanComplete plan = false → getNextStep plan = some (i, step) →
      ∃ out rest, plannerLoop o tools maxRe attempts k plan =
        (out, PEvent.planUpdate (markInProgress plan i step) :: rest)) := by
  refine ⟨?_, ?_, ?_, ?_⟩
  · intro plan i step h
    exact findFirstIdx_some_spec h
  · intro plan h s hs
    exact findFirstIdx_none_spec h s hs
  · intro o tools maxRe attempts k plan h1 h2
    exact plannerLoop_stuck o tools maxRe attempts k plan h1 h2
  · intro o tools maxRe attempts k plan i step h1 hstep
    have hcont : ∀ plan2 : Plan,
        ∃ out rest,
          ((plannerLoop o tools maxRe attempts (k + 1) plan2).1,
           ([PEvent.planUpdate (markInProgress plan i step),
             .thought ("正在执行步骤 " ++ step.id ++ ": " ++ step.description),
             .planUpdate plan2] : List PEvent) ++
            (plannerLoop o tools maxRe attempts (k + 1) plan2).2) =
          (out, PEvent.planUpdate (markInProgress plan i step) :: rest) :=
      fun plan2 =>
        ⟨(plannerLoop o tools maxRe attempts (k + 1) plan2).1,
         [PEvent.thought ("正在执行步骤 " ++ step.id ++ ": " ++ step.description),
          PEvent.planUpdate plan2] ++
           (plannerLoop o tools maxRe attempts (k + 1) plan2).2, rfl⟩
    by_cases hA : attempts < maxRe
    · cases href : o.refine k with
      | error e =>
        exact ⟨.failed e,
          [PEvent.thought ("正在执行步骤 " ++ step.id ++ ": " ++ step.description),
           PEvent.planUpdate
             (markDone plan i step (stepResultOf o tools plan i step) k)],
          by rw [plannerLoop_refine_error o tools maxRe attempts k plan i step
            e h1 hstep hA href]⟩
      | ok ref =>
        rcases hus : ref.updatedSteps with _ | u
        · obtain ⟨out, rest, hor⟩ := hcont
            (markDone plan i step (stepResultOf o tools plan i step) k)
          exact ⟨out, rest, by
            rw [plannerLoop_no_replan o tools maxRe attempts k plan i step ref
              h1 hstep hA href (Or.inl hus)]
            exact hor⟩
        · cases hsr : ref.shouldReplan
          · obtain ⟨out, rest, hor⟩ := hcont
              (markDone plan i step (stepResultOf o tools plan i step) k)
            exact ⟨out, rest, by
              rw [plannerLoop_no_replan o tools maxRe attempts k plan i step ref
                h1 hstep hA href (Or.inr hsr)]
              exact hor⟩
          · refine ⟨(plannerLoop o tools maxRe (attempts + 1) (k + 1)
                { markDone plan i step (stepResultOf o tools plan i step) k with
                  steps := applyReplan
                    (markDone plan i step (stepResultOf o tools plan i step) k).steps
                    u }).1,
              [PEvent.thought ("正在执行步骤 " ++ step.id ++ ": " ++ step.description),
               PEvent.planUpdate
                 (markDone plan i step (stepResultOf o tools plan i step) k),
               PEvent.thought ("重规划中: " ++ ref.reasoning),
               PEvent.planUpdate
                 { markDone plan i step (stepResultOf o tools plan i step) k with
                   steps := applyReplan
                     (markDone plan i step (stepResultOf o tools plan i step) k).steps
                     u }] ++
                (plannerLoop o tools maxRe (attempts + 1) (k + 1)
                  { markDone plan i step (stepResultOf o tools plan i step) k with
                    steps := applyReplan
                      (markDone plan i step (stepResultOf o tools plan i step) k).steps
                      u }).2, ?_⟩
            rw [plannerLoop_replan o tools maxRe attempts k plan i step ref u
              h1 hstep hA href hus hsr]
            rfl
    · obtain ⟨out, rest, hor⟩ := hcont
        (markDone plan i step (stepResultOf o tools plan i step) k)
      exact ⟨out, rest, by
        rw [plannerLoop_budget_spent o tools maxRe attempts k plan i step
          h1 hstep hA]
        exact hor⟩

/-- Witness for C2 at a concrete two-step plan whose second step is the
first eligible one (the first is already `done`), and at a concrete
stuck plan (one pending step with an unmet dependency). -/
theorem planner_step_selection_witness :
    (canRun
      [⟨"A", "a", .done, none, none, some "ra"⟩,
       ⟨"B", "b", .pending, none, some ["A"], none⟩]
      ⟨"B", "b", .pending, none, some ["A"], none⟩ = true)
    ∧ plannerLoop
        ⟨.ok [], fun _ _ _ => "", fun _ => .ok ⟨false, "", none⟩,
         fun _ => .ok ""⟩ [] 3 0 0
        ⟨"g", [⟨"s1", "d", .pending, none, some ["ghost"], none⟩], "r", []⟩ =
      (.finished ⟨"g", [⟨"s1", "d", .pending, none, some ["ghost"], none⟩], "r", []⟩,
       []) :=
  ⟨((planner_step_selection.1
      ⟨"g2", [⟨"A", "a", .done, none, none, some "ra"⟩,
              ⟨"B", "b", .pending, none, some ["A"], none⟩], "r", []⟩
      1 ⟨"B", "b", .pending, none, some ["A"], none⟩ rfl).2).1,
   planner_step_selection.2.2.1
     ⟨.ok [], fun _ _ _ => "", fun _ => .ok ⟨false, "", none⟩, fun _ => .ok ""⟩
     [] 3 0 0
     ⟨"g", [⟨"s1", "d", .pending, none, some ["ghost"], none⟩], "r", []⟩
     rfl rfl⟩

/-- C1: `PlannerExecutor.run` always resolves to a value — it is a
total function of its oracles, so nothing can escape as an exception —
and every failure anywhere in the run (the forced plan-generation call
included) is caught: the run returns the `success := false` record
carrying the original goal with empty steps and history
(`failurePlan`), the response wrapping the failure message, and the
trace ends with the `error` event reporting it (first conjunct); a
plan-generation failure in particular produces exactly that record and
a sole `error` event (second conjunct); and `failurePlan` carries the
original goal, no steps and no history (third conjunct). -/
theorem planner_run_total_and_failure_shape :
    (∀ (o : PlannerOracle) (tools : List Tool) (maxRe : Nat) (goal : String),
      (PlannerExecutor.run o tools maxRe goal).1.success = true
      ∨ ∃ m evs, PlannerExecutor.run o tools maxRe goal =
          ({ success := false, response := "无法完成计划: " ++ m,
             plan := failurePlan goal },
           evs ++ [.error ("规划器失败: " ++ m)]))
  ∧ (∀ (o : PlannerOracle) (tools : List Tool) (maxRe : Nat) (goal : String)
       (e : String),
      o.genPlanCalls = .error e →
      PlannerExecutor.run o tools maxRe goal =
        ({ success := false, response := "无法完成计划: " ++ e,
           plan := failurePlan goal },
         [.error ("规划器失败: " ++ e)]))
  ∧ (∀ goal : String, (failurePlan goal).goal = goal
      ∧ (failurePlan goal).steps = [] ∧ (failurePlan goal).history = []) := by
  refine ⟨?_, ?_, ?_⟩
  · intro o tools maxRe goal
    unfold PlannerExecutor.run
    cases hg : generatePlan o with
    | error e => exact Or.inr ⟨e, [], by simp [hg]⟩
    | ok plan =>
      rcases hl : plannerLoop o tools maxRe 0 0 plan with ⟨out, evs⟩
      cases out with
      | failed e => exact Or.inr ⟨e, evs, by simp [hg, hl]⟩
      | finished plan' =>
        cases hf : o.finalResponse plan' with
        | error e => exact Or.inr ⟨e, evs, by simp [hg, hl, hf]⟩
        | ok resp => exact Or.inl (by simp [hg, hl, hf])
  · intro o tools maxRe goal e hg
    unfold PlannerExecutor.run
    have : generatePlan o = .error e := by
      unfold generatePlan
      rw [hg]
    simp [this]
  · intro goal
    exact ⟨rfl, rfl, rfl⟩

/-- Witness for C1 at a concrete oracle whose forced plan-generation
call throws. -/
theorem planner_run_total_and_failure_shape_witness :
    PlannerExecutor.run
      ⟨.error "bad json", fun _ _ _ => "", fun _ => .ok ⟨false, "", none⟩,
       fun _ => .ok ""⟩ [] 3 "my goal" =
      ({ success := false, response := "无法完成计划: " ++ "bad json",
         plan := failurePlan "my goal" },
       [.error ("规划器失败: " ++ "bad json")]) :=
  planner_run_total_and_failure_shape.2.1
    ⟨.error "bad json", fun _ _ _ => "", fun _ => .ok ⟨false, "", none⟩,
     fun _ => .ok ""⟩ [] 3 "my goal" "bad json" rfl

/-- C6: when the refinement call returns `shouldReplan` with an
`updatedSteps` list and the replan counter has budget left, the step
list becomes exactly the already-`done` steps in original order
followed by the replacement steps (first conjunct — under distinct
ids between non-done and done steps, which the id field's contract
stipulates), each new step defaulting to `pending` unless explicitly
`skipped` (second and third conjuncts), the counter is incremented and
replaced pending steps are gone (fourth conjunct: the loop recurses at
`attempts + 1` on the spliced plan); on the spec's scenario
`[A(done), B(pending), C(pending, deps:[B])]` with replacement `[B2]`
the result is `[A(done), B2(pending)]` and `C` is gone (fifth
conjunct). -/
theorem planner_replan_splice :
    (∀ (steps : List PlanStep) (u : List RStep),
      (∀ s ∈ steps, s.status ≠ .done → ∀ t ∈ steps, t.status = .done →
        s.id ≠ t.id) →
      applyReplan steps u =
        steps.filter (fun s => s.status == .done) ++ u.map mkReplanStep)
  ∧ (∀ r : RStep, r.status = none → (mkReplanStep r).status = .pending)
  ∧ (∀ r : RStep, r.status = some .skipped →
      (mkReplanStep r).status = .skipped)
  ∧ (∀ (o : PlannerOracle) (tools : List Tool) (maxRe attempts k : Nat)
       (plan : Plan) (i : Nat) (step : PlanStep) (ref : PlanRefinement)
       (u : List RStep),
      isPlanComplete plan = false →
      getNextStep plan = some (i, step) →
      attempts < maxRe →
      o.refine k = .ok ref →
      ref.updatedSteps = some u →
      ref.shouldReplan = true →
      plannerLoop o tools maxRe attempts k plan =
        (let plan2 := markDone plan i step (stepResultOf o tools plan i step) k
         let plan3 := { plan2 with steps := applyReplan plan2.steps u }
         let r := plannerLoop o tools maxRe (attempts + 1) (k + 1) plan3
         (r.1,
          [PEvent.planUpdate (markInProgress plan i step),
           .thought ("正在执行步骤 " ++ step.id ++ ": " ++ step.description),
           .planUpdate plan2, .thought ("重规划中: " ++ ref.reasoning),
           .planUpdate plan3] ++ r.2)))
  ∧ (applyReplan
        [⟨"A", "a", .done, none, none, some "ra"⟩,
         ⟨"B", "b", .pending, none, none, none⟩,
         ⟨"C", "c", .pending, none, some ["B"], none⟩]
        [⟨"B2", "b2", none, none⟩] =
      [⟨"A", "a", .done, none, none, some "ra"⟩,
       mkReplanStep ⟨"B2", "b2", none, none⟩]
      ∧ (mkReplanStep (⟨"B2", "b2", none, none⟩ : RStep)).status = .pending
      ∧ ∀ s ∈ applyReplan
          [⟨"A", "a", .done, none, none, some "ra"⟩,
           ⟨"B", "b", .pending, none, none, none⟩,
           ⟨"C", "c", .pending, none, some ["B"], none⟩]
          [⟨"B2", "b2", none, none⟩], s.id ≠ "C") := by
  refine ⟨?_, ?_, ?_,
    fun o tools maxRe attempts k plan i step ref u =>
      plannerLoop_replan o tools maxRe attempts k plan i step ref u,
    by decide⟩
  · intro steps u hids
    unfold applyReplan
    congr 1
    apply List.filter_congr
    intro s hs
    by_cases hd : s.status = .done
    · have hmem : s.id ∈ doneIds steps := by
        simp only [doneIds, List.mem_map, List.mem_filter]
        exact ⟨s, ⟨hs, by simp [hd]⟩, rfl⟩
      simp [hd, hmem]
    · have hnmem : s.id ∉ doneIds steps := by
        simp only [doneIds, List.mem_map, List.mem_filter]
        rintro ⟨t, ⟨ht, htd⟩, hid⟩
        exact hids s hs hd t ht (by simpa [beq_iff_eq] using htd) hid.symm
      simp [hd, hnmem]
  · intro r hr
    simp [mkReplanStep, hr]
  · intro r hr
    simp [mkReplanStep, hr]

/-- Witness for C6, applying the splice characterization at the spec's
scenario plan. -/
theorem planner_replan_splice_witness :
    applyReplan
      [⟨"A", "a", .done, none, none, some "ra"⟩,
       ⟨"B", "b", .pending, none, none, none⟩,
       ⟨"C", "c", .pending, none, some ["B"], none⟩]
      [⟨"B2", "b2", none, none⟩] =
      ([⟨"A", "a", .done, none, none, some "ra"⟩,
        ⟨"B", "b", .pending, none, none, none⟩,
        ⟨"C", "c", .pending, none, some ["B"], none⟩] : List PlanStep).filter
        (fun s => s.status == .done) ++
      ([⟨"B2", "b2", none, none⟩] : List RStep).map mkReplanStep :=
  planner_replan_splice.1
    [⟨"A", "a", .done, none, none, some "ra"⟩,
     ⟨"B", "b", .pending, none, none, none⟩,
     ⟨"C", "c", .pending, none, some ["B"], none⟩]
    [⟨"B2", "b2", none, none⟩] (by decide)

/-- A step list is status-sound when no step is `failed` or
`in_progress` (the plan states the orchestrator lets escape). -/
def statusSound (steps : List PlanStep) : Prop :=
  ∀ s ∈ steps, s.status ≠ .failed ∧ s.status ≠ .in_progress

theorem statusSound_set {steps : List PlanStep} {i : Nat} {x : PlanStep}
    (h : statusSound steps) (hx : x.status ≠ .failed ∧ x.status ≠ .in_progress) :
    statusSound (steps.set i x) := by
  intro s hs
  rcases List.mem_or_eq_of_mem_set hs with hmem | heq
  · exact h s hmem
  · rw [heq]; exact hx

theorem statusSound_applyReplan {steps : List PlanStep} {u : List RStep}
    (h : statusSound steps) : statusSound (applyReplan steps u) := by
  intro s hs
  rcases List.mem_append.mp hs with hmem | hmem
  · exact h s (List.mem_of_mem_filter hmem)
  · obtain ⟨r, _, hr⟩ := List.mem_map.mp hmem
    rw [← hr]
    unfold mkReplanStep
    rcases r.status with _ | st
    · simp
    · cases st <;> simp

/-- The planner loop preserves status-soundness of the plan's steps. -/
theorem plannerLoop_statusSound (o : PlannerOracle) (tools : List Tool)
    (maxRe : Nat) :
    ∀ (attempts k : Nat) (plan : Plan), statusSound plan.steps →
      ∀ plan' evs, plannerLoop o tools maxRe attempts k plan =
        (.finished plan', evs) → statusSound plan'.steps := by
  intro attempts k plan
  induction attempts, k, plan using plannerLoop.induct o tools maxRe with
  | case1 attempts k plan hcomplete =>
    intro hgood plan' evs heq
    rw [plannerLoop_complete o tools maxRe attempts k plan hcomplete] at heq
    injection heq with h1 h2
    injection h1 with h1
    rw [← h1]
    exact hgood
  | case2 attempts k plan hcomplete hnext =>
    intro hgood plan' evs heq
    have h1 : isPlanComplete plan = false := by simpa using hcomplete
    rw [plannerLoop_stuck o tools maxRe attempts k plan h1 hnext] at heq
    injection heq with h1 h2
    injection h1 with h1
    rw [← h1]
    exact hgood
  | case3 attempts k plan hcomplete i step hnext hA e href =>
    intro hgood plan' evs heq
    have h1 : isPlanComplete plan = false := by simpa using hcomplete
    rw [plannerLoop_refine_error o tools maxRe attempts k plan i step e
      h1 hnext hA href] at heq
    injection heq with h1 h2
    exact absurd h1 (by simp)
  | case4 attempts k plan hcomplete i step hnext stepRes plan2 hA ref href u hsr hus plan3 ih =>
    intro hgood plan' evs heq
    have h1 : isPlanComplete plan = false := by simpa using hcomplete
    rw [plannerLoop_replan o tools maxRe attempts k plan i step ref u
      h1 hnext hA href hus hsr] at heq
    simp only [] at heq
    rcases hr : plannerLoop o tools maxRe (attempts + 1) (k + 1)
        { markDone plan i step (stepResultOf o tools plan i step) k with
          steps := applyReplan
            (markDone plan i step (stepResultOf o tools plan i step) k).steps
            u } with ⟨out, evs2⟩
    rw [hr] at heq
    injection heq with hout hevs
    have hsound3 : statusSound
        (applyReplan
          (markDone plan i step (stepResultOf o tools plan i step) k).steps u) := by
      apply statusSound_applyReplan
      unfold markDone
      exact statusSound_set hgood (by simp)
    exact ih hsound3 plan' evs2
      (by rw [hr, show out = LoopOut.finished plan' from by simpa using hout])
  | case5 attempts k plan hcomplete i step hnext stepRes plan2 hA ref href hnone ih =>
    intro hgood plan' evs heq
    have h1 : isPlanComplete plan = false := by simpa using hcomplete
    have hno : ref.updatedSteps = none ∨ ref.shouldReplan = false := by
      rcases hus : ref.updatedSteps with _ | u
      · exact Or.inl rfl
      · cases hsr : ref.shouldReplan
        · exact Or.inr rfl
        · exact absurd (hnone u hus hsr) (by simp)
    rw [plannerLoop_no_replan o tools maxRe attempts k plan i step ref
      h1 hnext hA href hno] at heq
    simp only [] at heq
    rcases hr : plannerLoop o tools maxRe attempts (k + 1)
        (markDone plan i step (stepResultOf o tools plan i step) k)
      with ⟨out, evs2⟩
    rw [hr] at heq
    injection heq with hout hevs
    have hsound2 : statusSound
        (markDone plan i step (stepResultOf o tools plan i step) k).steps := by
      unfold markDone
      exact statusSound_set hgood (by simp)
    exact ih hsound2 plan' evs2
      (by rw [hr, show out = LoopOut.finished plan' from by simpa using hout])
  | case6 attempts k plan hcomplete i step hnext stepRes plan2 hA ih =>
    intro hgood plan' evs heq
    have h1 : isPlanComplete plan = false := by simpa using hcomplete
    rw [plannerLoop_budget_spent o tools maxRe attempts k plan i step
      h1 hnext hA] at heq
    simp only [] at heq
    rcases hr : plannerLoop o tools maxRe attempts (k + 1)
        (markDone plan i step (stepResultOf o tools plan i step) k)
      with ⟨out, evs2⟩
    rw [hr] at heq
    injection heq with hout hevs
    have hsound2 : statusSound
        (markDone plan i step (stepResultOf o tools plan i step) k).steps := by
      unfold markDone
      exact statusSound_set hgood (by simp)
    exact ih hsound2 plan' evs2
      (by rw [hr, show out = LoopOut.finished plan' from by simpa using hout])

/-- C10 (amended): no operation of `PlannerExecutor` ever assigns the
status `failed` — or leaves `in_progress` standing: in the plan
returned by every run (successful or not) each step's status is
`pending`, `done` or `skipped`; a started step is unconditionally
marked `done` with the engine's string (see `markDone` and the loop
equations); but `success := true` does not guarantee completion — a
run stuck on unmet dependencies returns `success := true` with
`pending` steps remaining (see the counterexample). -/
theorem planner_no_failed_steps :
    ∀ (o : PlannerOracle) (tools : List Tool) (maxRe : Nat) (goal : String),
      (PlannerExecutor.run o tools maxRe goal).1.plan.steps.all
        (fun s => !(s.status == .failed) && !(s.status == .in_progress)) =
        true := by
  intro o tools maxRe goal
  unfold PlannerExecutor.run
  cases hg : generatePlan o with
  | error e => simp [failurePlan]
  | ok plan =>
    have hsound0 : statusSound plan.steps := by
      unfold generatePlan at hg
      cases hcalls : o.genPlanCalls with
      | error e => rw [hcalls] at hg; exact absurd hg (by simp)
      | ok calls =>
        rw [hcalls] at hg
        cases calls with
        | nil => exact absurd hg (by simp)
        | cons c rest =>
          rcases c with ⟨nm, pd⟩
          by_cases hnm : nm == "generate_plan"
          · simp only [hnm, if_true] at hg
            injection hg with hg
            rw [← hg]
            intro s hs
            obtain ⟨g, _, hgs⟩ := List.mem_map.mp hs
            rw [← hgs]
            simp [mkPlanStep]
          · simp [hnm] at hg
    rcases hl : plannerLoop o tools maxRe 0 0 plan with ⟨out, evs⟩
    cases out with
    | failed e => simp [hl, failurePlan]
    | finished plan' =>
      have hsound' :=
        plannerLoop_statusSound o tools maxRe 0 0 plan hsound0 plan' evs hl
      cases hf : o.finalResponse plan' with
      | error e => simp [hl, hf, failurePlan]
      | ok resp =>
        simp only [hl, hf]
        rw [List.all_eq_true]
        intro s hs
        obtain ⟨hf1, hf2⟩ := hsound' s hs
        simp [hf1, hf2]

/-- Counterexample for C10 as frozen: a run stuck on an unmet
dependency returns `success := true` while its only step is still
`pending` — completion to `done`/`skipped` is not guaranteed on the
success path. -/
theorem planner_no_failed_steps_counterexample :
    ((PlannerExecutor.run
        ⟨.ok [("generate_plan",
            ⟨"goal", [⟨"s1", "d", none, some ["ghost"]⟩], "r"⟩)],
         fun _ _ _ => "res", fun _ => .ok ⟨false, "", none⟩,
         fun _ => .ok "sum"⟩
        [] 3 "goal").1.success = true)
    ∧ ((PlannerExecutor.run
        ⟨.ok [("generate_plan",
            ⟨"goal", [⟨"s1", "d", none, some ["ghost"]⟩], "r"⟩)],
         fun _ _ _ => "res", fun _ => .ok ⟨false, "", none⟩,
         fun _ => .ok "sum"⟩
        [] 3 "goal").1.plan.steps.map (fun s => s.status) = [.pending]) := by
  have hloop := plannerLoop_stuck
    ⟨.ok [("generate_plan",
        ⟨"goal", [⟨"s1", "d", none, some ["ghost"]⟩], "r"⟩)],
     fun _ _ _ => "res", fun _ => .ok ⟨false, "", none⟩,
     fun _ => .ok "sum"⟩
    [] 3 0 0
    ⟨"goal", [⟨"s1", "d", .pending, none, some ["ghost"], none⟩], "r", []⟩
    rfl rfl
  constructor <;>
    simp [PlannerExecutor.run, generatePlan, mkPlanStep, hloop]

end AgentCore
